import Mathlib

/-!
Verification of the constraint-system compiler (Bitcoin-Wildlife-Sanctuary/dsl).

This file shallowly embeds the parts of the Rust source that the verified
claims are about:

* `src/builtins/table/utils.rs` — native Mersenne-31 helpers (`mul_m31`,
  `add_m31`, `sub_m31`, `sqn`, `pow2147483645`);
* `src/builtins/m31.rs` — the native value computation of `Add`/`Sub`/`Mul`
  for `M31Var` and `inverse_without_table`;
* `src/builtins/table/mod.rs` — the quarter-square lookup table;
* `src/builtins/i32.rs` — `I32Var::to_positive_limbs`;
* `src/stack.rs` — the stack model (bitmap + Fenwick tree);
* `src/constraint_system.rs` — memory, trace, `alloc`, `insert_script`;
* `src/builtins/hash.rs` — SHA-256 folding (`impl Add for &HashVar`,
  `impl From<&T> for HashVar`), with a full executable SHA-256;
* `src/ldm.rs` — the log-data-memory write/read hash chains;
* `src/compiler.rs` — the planner main walk and output routing.

Machine integers are modelled as `Nat`/`Int` with explicit `% 2^w` wherever
the Rust code can wrap; fallible code returns `Except`/`Option`.
-/

/-! ### Mersenne-31 native helpers, from `src/builtins/table/utils.rs`

The Rust functions take `u32` arguments, widen to `i64`, and truncate the
result back to `u32`.  All call sites relevant to the claims pass values
below `2^31`, for which the `i64` intermediates are non-negative and far
from overflow, so the `Nat` translation below is exact on that range. -/

/-- `mul_m31` (utils.rs line 4): `(((a as i64) * (b as i64)) % ((1i64 << 31) - 1)) as u32`. -/
def mul_m31 (a b : Nat) : Nat :=
  a * b % 2147483647

/-- `add_m31` (utils.rs line 8): `(((a as i64) + (b as i64)) % ((1i64 << 31) - 1)) as u32`. -/
def add_m31 (a b : Nat) : Nat :=
  (a + b) % 2147483647

/-- `sub_m31` (utils.rs line 12):
`((((1i64 << 31) - 1) + (a as i64) - (b as i64)) % ((1i64 << 31) - 1)) as u32`.
For `b ≤ 2147483647 + a` the `i64` value is non-negative and the `Nat`
subtraction below coincides with it. -/
def sub_m31 (a b : Nat) : Nat :=
  (2147483647 + a - b) % 2147483647

/-- `sqn::<N>` (utils.rs line 182): squares `v` modulo `2^31 - 1`, `N` times. -/
def sqn (n : Nat) (v : Nat) : Nat :=
  match n with
  | 0 => v
  | m + 1 => sqn m (mul_m31 v v)

/-- `pow2147483645` (utils.rs lines 171–179): the fixed eleven-multiplication
addition chain. -/
def pow2147483645 (v : Nat) : Nat :=
  let t0 := mul_m31 (sqn 2 v) v
  let t1 := mul_m31 (sqn 1 t0) t0
  let t2 := mul_m31 (sqn 3 t1) t0
  let t3 := mul_m31 (sqn 1 t2) t0
  let t4 := mul_m31 (sqn 8 t3) t3
  let t5 := mul_m31 (sqn 8 t4) t3
  mul_m31 (sqn 7 t5) t2

/-! ### `M31Var` arithmetic, from `src/builtins/m31.rs`

`impl Add for &M31Var` computes
`((self.value as i64) + (rhs.value as i64) % ((1i64 << 31) - 1)) as u32`;
note that in Rust `%` binds tighter than `+`, so only the right operand is
reduced and the sum itself is **not** taken modulo `2^31 - 1`.  The final
`as u32` cast wraps modulo `2^32`. -/

/-- Native value of `a + b` for `M31Var` (m31.rs line 57). -/
def m31AddValue (a b : Nat) : Nat :=
  (a + b % 2147483647) % 4294967296

/-- Native value of `a - b` for `M31Var` (m31.rs lines 77–78):
`((self.value as i64) + ((1i64 << 31) - 1) - (rhs.value as i64) % ((1i64 << 31) - 1)) as u32`.
Since `b % (2^31 - 1) < 2^31 - 1 ≤ a + (2^31 - 1)`, the `i64` value is
non-negative and `Nat` subtraction is exact. -/
def m31SubValue (a b : Nat) : Nat :=
  (a + 2147483647 - b % 2147483647) % 4294967296

/-- Native value of `a * b` for `M31Var` (m31.rs line 98). -/
def m31MulValue (a b : Nat) : Nat :=
  a * b % 2147483647

/-! ### The quarter-square lookup table, from `src/builtins/table/mod.rs` -/

/-- `generate_table::<N>` (table/mod.rs lines 37–48): a vector of
`(1 << N) + 1` entries with `v[i] = (i * i) / 4`. -/
def generate_table (n : Nat) : List Nat :=
  (List.range (2 ^ n + 1)).map (fun i => i * i / 4)

/-- `get_table` (table/mod.rs lines 50–52): the table is generated with `N = 9`. -/
def get_table : List Nat :=
  generate_table 9

/-- `TableVar::length()` (table/mod.rs lines 70–72). -/
def tableVarLength : Nat := 513

/-! ### `I32Var::to_positive_limbs`, from `src/builtins/i32.rs` (lines 137–171)

The Rust code asserts `l <= 8` and `value >= 0`, casts the value to `u32`,
and then takes `n = (32 + l - 1) / l` limbs via `value & ((1 << l) - 1)` and
`value >>= l`.  Each limb is then stored in a `U8Var` via `v as u8`, which
truncates modulo `256`. -/

/-- The limb-extraction loop of `to_positive_limbs`, taking `n` limbs. -/
def to_positive_limbs_list (value l n : Nat) : List Nat :=
  match n with
  | 0 => []
  | m + 1 => (value % 2 ^ l % 256) :: to_positive_limbs_list (value / 2 ^ l) l m

/-- `to_positive_limbs` on the native (value) side: limb count `(32 + l - 1) / l`. -/
def to_positive_limbs (value l : Nat) : List Nat :=
  to_positive_limbs_list value l ((32 + l - 1) / l)

/-- Spec-side recomposition in base `2^l` (little-endian): `Σ limbᵢ · 2^(l·i)`.
This definition follows the spec's words, to be compared with the
source-derived `to_positive_limbs`. -/
def recompose_limbs (l : Nat) (limbs : List Nat) : Nat :=
  limbs.foldr (fun d acc => d + 2 ^ l * acc) 0

/-! ### The stack model, from `src/stack.rs`

The external `fenwick_tree::FenwickTree<isize>` is modelled by its documented
semantics: a vector of `isize` values supporting point updates (`add`) and
range sums (`sum`).  Rust `isize` casts to `usize` (`as usize`) are exact for
non-negative values, which the stack invariant guarantees; they are modelled
with `Int.toNat`. -/

inductive StackElementStatus
  | ABSENT
  | PRESENT (numElements : Nat)
  | PULLED
deriving DecidableEq, Repr

/-- Point update of the Fenwick-tree model (`FenwickTree::add`). -/
def fenwickAdd (t : List Int) (idx : Nat) (delta : Int) : List Int :=
  t.set idx (t.getD idx 0 + delta)

/-- Range sum of the Fenwick-tree model (`FenwickTree::sum(lo..hi)`). -/
def fenwickSum (t : List Int) (lo hi : Nat) : Int :=
  ((t.drop lo).take (hi - lo)).sum

structure Stack where
  bitmap : List StackElementStatus
  fenwick_tree : List Int
  size : Nat
deriving Repr

/-- `Stack::new` (stack.rs lines 18–24). -/
def Stack.new (size : Nat) : Stack :=
  ⟨List.replicate size StackElementStatus.ABSENT, List.replicate size 0, size⟩

/-- `Stack::push_to_stack` (stack.rs lines 26–35).  Indexing `bitmap[idx]`
panics when out of bounds; the panic is modelled as an error. -/
def Stack.push_to_stack (s : Stack) (idx : Nat) (num_elements : Nat) :
    Except String Stack :=
  if h : idx < s.bitmap.length then
    if s.bitmap.get ⟨idx, h⟩ ≠ StackElementStatus.ABSENT then
      .error "The stack seems to already have these elements."
    else
      .ok { s with
        bitmap := s.bitmap.set idx (StackElementStatus.PRESENT num_elements),
        fenwick_tree := fenwickAdd s.fenwick_tree idx (num_elements : Int) }
  else
    .error "index out of bounds"

/-- `Stack::is_present` (stack.rs lines 37–39). -/
def Stack.is_present (s : Stack) (idx : Nat) : Except String Bool :=
  if h : idx < s.bitmap.length then
    .ok (match s.bitmap.get ⟨idx, h⟩ with
      | StackElementStatus.PRESENT _ => true
      | _ => false)
  else
    .error "index out of bounds"

/-- `Stack::pull` (stack.rs lines 41–53). -/
def Stack.pull (s : Stack) (idx : Nat) : Except String Stack :=
  if h : idx < s.bitmap.length then
    match s.bitmap.get ⟨idx, h⟩ with
    | StackElementStatus.PRESENT num_elements =>
        .ok { s with
          bitmap := s.bitmap.set idx StackElementStatus.PULLED,
          fenwick_tree := fenwickAdd s.fenwick_tree idx (-(num_elements : Int)) }
    | _ => .error "Only elements present in the stack can be pulled aside."
  else
    .error "index out of bounds"

/-- `Stack::get_relative_position` (stack.rs lines 55–61):
`(self.fenwick_tree.sum(idx..self.size)? - 1) as usize`. -/
def Stack.get_relative_position (s : Stack) (idx : Nat) : Except String Nat :=
  if h : idx < s.bitmap.length then
    match s.bitmap.get ⟨idx, h⟩ with
    | StackElementStatus.PRESENT _ =>
        .ok (fenwickSum s.fenwick_tree idx s.size - 1).toNat
    | _ => .error "Only elements in the stack can have the relative position to the top of the stack."
  else
    .error "index out of bounds"

/-- `Stack::get_length` (stack.rs lines 63–72). -/
def Stack.get_length (s : Stack) (idx : Nat) : Except String Nat :=
  if h : idx < s.bitmap.length then
    match s.bitmap.get ⟨idx, h⟩ with
    | StackElementStatus.PRESENT num_elements => .ok num_elements
    | _ => .error "Only elements in the stack can have the relative position to the top of the stack."
  else
    .error "index out of bounds"

/-- `Stack::get_num_elements_in_stack` (stack.rs lines 74–76). -/
def Stack.get_num_elements_in_stack (s : Stack) : Except String Nat :=
  .ok (fenwickSum s.fenwick_tree 0 s.size).toNat

/-- Footprint of a slot: the stored length for `PRESENT`, zero otherwise. -/
def presentFootprint : StackElementStatus → Nat
  | StackElementStatus.PRESENT n => n
  | _ => 0

/-- Spec-side depth formula: the sum of the footprints of all `PRESENT`
slots with index `≥ idx` (from the spec's words, for comparison with
`Stack.get_relative_position`). -/
def specSuffixFootprint (s : Stack) (idx : Nat) : Nat :=
  ((s.bitmap.drop idx).map presentFootprint).sum

/-- A slot's footprint is positive when it is `PRESENT`. -/
def footprintPositive : StackElementStatus → Bool
  | StackElementStatus.PRESENT n => 0 < n
  | _ => true

/-- Whether the slot for `idx` is `PRESENT` (the claim's wording). -/
def Stack.isPresentAt (s : Stack) (idx : Nat) : Bool :=
  match s.bitmap.get? idx with
  | some (StackElementStatus.PRESENT _) => true
  | _ => false

/-- Well-formedness of the stack model: the Fenwick-tree model holds exactly
the footprints of the bitmap, the lengths agree with `size`, and every
`PRESENT` footprint is at least `1` (every registered data type occupies at
least one stack slot). -/
def Stack.WF (s : Stack) : Prop :=
  s.fenwick_tree = s.bitmap.map (fun st => (presentFootprint st : Int)) ∧
  s.bitmap.length = s.size ∧
  s.bitmap.all footprintPositive = true

/-! ### SHA-256, executable, over byte lists

The Rust side uses the `sha2` crate; the claims about `HashVar` fold concrete
SHA-256 digests, so the full algorithm is embedded here (bytes are `Nat`
values below `256`, words are `Nat` values below `2^32`). -/

/-- Truncation to a 32-bit word. -/
def w32 (x : Nat) : Nat := x % 4294967296

/-- 32-bit right rotation. -/
def rotr32 (n x : Nat) : Nat := ((x >>> n) ||| (x <<< (32 - n))) % 4294967296

def sha256Ch (x y z : Nat) : Nat := (x &&& y) ^^^ ((x ^^^ 4294967295) &&& z)

def sha256Maj (x y z : Nat) : Nat := (x &&& y) ^^^ (x &&& z) ^^^ (y &&& z)

def sha256BSig0 (x : Nat) : Nat := rotr32 2 x ^^^ rotr32 13 x ^^^ rotr32 22 x

def sha256BSig1 (x : Nat) : Nat := rotr32 6 x ^^^ rotr32 11 x ^^^ rotr32 25 x

def sha256SSig0 (x : Nat) : Nat := rotr32 7 x ^^^ rotr32 18 x ^^^ (x >>> 3)

def sha256SSig1 (x : Nat) : Nat := rotr32 17 x ^^^ rotr32 19 x ^^^ (x >>> 10)

def sha256K : List Nat :=
  [1116352408, 1899447441, 3049323471, 3921009573,
   961987163, 1508970993, 2453635748, 2870763221,
   3624381080, 310598401, 607225278, 1426881987,
   1925078388, 2162078206, 2614888103, 3248222580,
   3835390401, 4022224774, 264347078, 604807628,
   770255983, 1249150122, 1555081692, 1996064986,
   2554220882, 2821834349, 2952996808, 3210313671,
   3336571891, 3584528711, 113926993, 338241895,
   666307205, 773529912, 1294757372, 1396182291,
   1695183700, 1986661051, 2177026350, 2456956037,
   2730485921, 2820302411, 3259730800, 3345764771,
   3516065817, 3600352804, 4094571909, 275423344,
   430227734, 506948616, 659060556, 883997877,
   958139571, 1322822218, 1537002063, 1747873779,
   1955562222, 2024104815, 2227730452, 2361852424,
   2428436474, 2756734187, 3204031479, 3329325298]

def sha256InitH : List Nat :=
  [1779033703, 3144134277, 1013904242,
   2773480762, 1359893119, 2600822924,
   528734635, 1541459225]

/-- `k` bytes of `v` in big-endian order. -/
def bytesBE (k v : Nat) : List Nat :=
  match k with
  | 0 => []
  | m + 1 => bytesBE m (v / 256) ++ [v % 256]

/-- SHA-256 padding: append `0x80`, zero bytes to 56 mod 64, then the
64-bit big-endian bit length. -/
def sha256Pad (msg : List Nat) : List Nat :=
  let len := msg.length
  let zeros := (64 + 56 - (len + 1) % 64) % 64
  msg ++ [0x80] ++ List.replicate zeros 0 ++ bytesBE 8 (len * 8)

/-- Group bytes into big-endian 32-bit words. -/
def bytesToWords : List Nat → List Nat
  | b0 :: b1 :: b2 :: b3 :: rest =>
      (((b0 * 256 + b1) * 256 + b2) * 256 + b3) :: bytesToWords rest
  | _ => []

/-- Extend 16 message-schedule words to 64. -/
def sha256Extend (w : List Nat) : List Nat :=
  (List.range 48).foldl
    (fun w _ =>
      w ++ [w32 (sha256SSig1 (w.getD (w.length - 2) 0) + w.getD (w.length - 7) 0 +
                 sha256SSig0 (w.getD (w.length - 15) 0) + w.getD (w.length - 16) 0)])
    w

/-- One SHA-256 round on the eight-word working state. -/
def sha256Round (st : List Nat) (kw : Nat × Nat) : List Nat :=
  match st with
  | [a, b, c, d, e, f, g, hh] =>
      let t1 := w32 (hh + sha256BSig1 e + sha256Ch e f g + kw.1 + kw.2)
      let t2 := w32 (sha256BSig0 a + sha256Maj a b c)
      [w32 (t1 + t2), a, b, c, w32 (d + t1), e, f, g]
  | _ => st

/-- Compress one 64-byte block into the hash state. -/
def sha256Compress (h : List Nat) (block : List Nat) : List Nat :=
  let w := sha256Extend (bytesToWords block)
  let final := (List.zip sha256K w).foldl sha256Round h
  List.zipWith (fun x y => w32 (x + y)) h final

/-- Full SHA-256 of a byte list, as a 32-byte list. -/
def sha256 (msg : List Nat) : List Nat :=
  let padded := sha256Pad msg
  let blocks := (List.range (padded.length / 64)).map
    (fun i => (padded.drop (64 * i)).take 64)
  let hfin := blocks.foldl sha256Compress sha256InitH
  hfin.foldr (fun wrd acc => bytesBE 4 wrd ++ acc) []

/-! ### Options, from `src/options.rs`

`Options` is a `HashMap<String, OptionsEntry>`; the map is modelled as an
association list with insert-or-replace semantics. -/

inductive OptionsEntry
  | StringE (s : String)
  | Binary (b : List Nat)
  | MultiBinary (b : List (List Nat))
  | U32 (n : Nat)
  | MultiU32 (ns : List Nat)
  | U64 (n : Nat)
  | MultiU64 (ns : List Nat)
deriving DecidableEq, Repr

def optionsMapInsert (m : List (String × OptionsEntry)) (k : String)
    (v : OptionsEntry) : List (String × OptionsEntry) :=
  if m.any (fun p => p.1 = k) then
    m.map (fun p => if p.1 = k then (k, v) else p)
  else
    m ++ [(k, v)]

structure Options where
  map : List (String × OptionsEntry)
deriving DecidableEq, Repr

def Options.new : Options := ⟨[]⟩

def Options.with_u32 (o : Options) (name : String) (entry : Nat) : Options :=
  ⟨optionsMapInsert o.map name (OptionsEntry.U32 entry)⟩

def Options.get_u32 (o : Options) (name : String) : Except String Nat :=
  match (o.map.find? (fun p => p.1 = name)).map Prod.snd with
  | some (OptionsEntry.U32 v) => .ok v
  | _ => .error "The corresponding option must be a u32"

/-! ### The recording layer, from `src/constraint_system.rs`

`Memory` is an `IndexMap<usize, Element>`: an insertion-ordered map, modelled
as an association list (new keys are appended).  Script-generator function
pointers stored in the trace are modelled by `GadgetId` names, one per Rust
function. -/

inductive Element
  | Num (v : Int)
  | Str (s : List Nat)
deriving DecidableEq, Repr

inductive AllocationMode
  | ProgramInput
  | FunctionOutput
  | Constant
  | Hint
deriving DecidableEq, Repr

/-- Names for the script-generator function pointers recorded in the trace. -/
inductive GadgetId
  | m31AddGadget
  | m31SubGadget
  | m31MultGadget
  | m31IsOneGadget
  | m31EqualverifyGadget
  | m31ToLimbsGadget
  | hashCombine
  | hashMany
  | dummyScript
  | singleElemEqualverify
  | i32AddGadget
  | i32SubGadget
  | i32CheckFormat
  | i32ToPositiveLimbsCheck
deriving DecidableEq, Repr

inductive TraceEntry
  | InsertScript (g : GadgetId) (inputs : List Nat) (opts : Options)
  | DeclareConstant (idx : Nat)
  | DeclareOutput (idx : Nat)
  | RequestHint (idx : Nat)
  | SystemOutput (idx : Nat)
deriving DecidableEq, Repr

structure ConstraintSystem where
  memory : List (Nat × Element)
  memory_last_idx : Nat
  trace : List TraceEntry
  num_inputs : Option Nat
  finalized : Bool
deriving DecidableEq, Repr

/-- `IndexMap::get` on the memory model. -/
def memGet (m : List (Nat × Element)) (idx : Nat) : Option Element :=
  (m.find? (fun p => p.1 = idx)).map Prod.snd

/-- `ConstraintSystem::new` (constraint_system.rs lines 109–117). -/
def ConstraintSystem.new : ConstraintSystem :=
  ⟨[], 0, [], none, false⟩

/-- `ConstraintSystem::alloc` (constraint_system.rs lines 124–158). -/
def ConstraintSystem.alloc (cs : ConstraintSystem) (data : Element)
    (mode : AllocationMode) : Except String (Nat × ConstraintSystem) :=
  if cs.finalized then
    .error "The constraint system has been finalized"
  else
    let sealed : Except String ConstraintSystem :=
      if mode ≠ AllocationMode.ProgramInput then
        .ok (if cs.num_inputs = none then
          { cs with num_inputs := some cs.memory_last_idx } else cs)
      else
        if cs.num_inputs.isSome then
          .error "Inputs can only be allocated before any execution or allocation for constants or hints"
        else
          .ok cs
    match sealed with
    | .error e => .error e
    | .ok cs =>
      let idx := cs.memory_last_idx
      let cs := { cs with memory_last_idx := idx + 1 }
      if (memGet cs.memory idx).isSome then
        .error "Memory is corrupted"
      else
        let cs := { cs with memory := cs.memory ++ [(idx, data)] }
        let cs :=
          if mode = AllocationMode.Constant then
            { cs with trace := cs.trace ++ [TraceEntry.DeclareConstant idx] }
          else if mode = AllocationMode.Hint then
            { cs with trace := cs.trace ++ [TraceEntry.RequestHint idx] }
          else if mode = AllocationMode.FunctionOutput then
            { cs with trace := cs.trace ++ [TraceEntry.DeclareOutput idx] }
          else
            cs
        .ok (idx, cs)

/-- `ConstraintSystem::insert_script` / `insert_script_complex`
(constraint_system.rs lines 214–258): both seal the input count and append
an `InsertScript` trace entry naming the generator. -/
def ConstraintSystem.insert_script (cs : ConstraintSystem) (g : GadgetId)
    (input_idxs : List Nat) (options : Options) :
    Except String ConstraintSystem :=
  if cs.finalized then
    .error "The constraint system has been finalized"
  else
    let cs :=
      if cs.num_inputs = none then
        { cs with num_inputs := some cs.memory_last_idx } else cs
    .ok { cs with trace := cs.trace ++ [TraceEntry.InsertScript g input_idxs options] }

/-- `ConstraintSystem::set_program_output` (constraint_system.rs lines 160–175). -/
def ConstraintSystem.set_program_output (cs : ConstraintSystem)
    (indices : List Nat) : Except String ConstraintSystem :=
  if cs.finalized then
    .error "The constraint system has been finalized"
  else
    indices.foldlM
      (fun cs index =>
        if (memGet cs.memory index).isNone then
          .error "Could not find the memory entry with the given index"
        else
          .ok { cs with trace := cs.trace ++ [TraceEntry.SystemOutput index] })
      cs

/-- `ConstraintSystem::get_element` (constraint_system.rs lines 203–212). -/
def ConstraintSystem.get_element (cs : ConstraintSystem) (idx : Nat) :
    Except String Element :=
  if cs.finalized then
    .error "The constraint system has been finalized"
  else
    match memGet cs.memory idx with
    | some v => .ok v
    | none => .error "Cannot read the requested data in memory"

/-- `ConstraintSystem::finalize` (constraint_system.rs lines 260–262). -/
def ConstraintSystem.finalize (cs : ConstraintSystem) : ConstraintSystem :=
  { cs with finalized := true }

/-- The u32 → i32 bit cast (`data as i32` in `M31Var::new_variable`). -/
def u32AsI32 (n : Nat) : Int :=
  if n < 2147483648 then (n : Int) else (n : Int) - 4294967296

/-! ### The stack-machine opcode model (for emitted snippets). -/

inductive Op
  | OP_PICK (n : Nat)
  | OP_ROLL (n : Nat)
  | OP_TOALTSTACK
  | OP_FROMALTSTACK
  | OP_DROP
  | OP_2DROP
  | OP_CAT
  | OP_SHA256
  | PushConst (idx : Nat)
  | SubprogramCall (name : String) (ref_positions : List Nat)
deriving DecidableEq, Repr

/-- `hash_combine` (hash.rs lines 131–133): concatenate then SHA-256. -/
def hash_combine_script : List Op := [Op.OP_CAT, Op.OP_SHA256]

/-! ### `M31Var` operations over the recording layer, from `src/builtins/m31.rs` -/

structure M31Var where
  var : Nat
  value : Nat
deriving DecidableEq, Repr

/-- `M31Var::new_variable` (m31.rs lines 39–51): allocates
`Element::Num(data as i32)`. -/
def M31Var.new_variable (cs : ConstraintSystem) (data : Nat)
    (mode : AllocationMode) : Except String (M31Var × ConstraintSystem) := do
  let (idx, cs) ← cs.alloc (Element.Num (u32AsI32 data)) mode
  .ok (⟨idx, data⟩, cs)

/-- `impl Add for &M31Var` (m31.rs lines 53–71). -/
def M31Var.add (cs : ConstraintSystem) (a rhs : M31Var) :
    Except String (M31Var × ConstraintSystem) := do
  let res := m31AddValue a.value rhs.value
  let cs ← cs.insert_script GadgetId.m31AddGadget [a.var, rhs.var] Options.new
  M31Var.new_variable cs res AllocationMode.FunctionOutput

/-- `impl Sub for &M31Var` (m31.rs lines 73–92). -/
def M31Var.sub (cs : ConstraintSystem) (a rhs : M31Var) :
    Except String (M31Var × ConstraintSystem) := do
  let res := m31SubValue a.value rhs.value
  let cs ← cs.insert_script GadgetId.m31SubGadget [a.var, rhs.var] Options.new
  M31Var.new_variable cs res AllocationMode.FunctionOutput

/-- `impl Mul for &M31Var` (m31.rs lines 94–111). -/
def M31Var.mul (cs : ConstraintSystem) (a rhs : M31Var) :
    Except String (M31Var × ConstraintSystem) := do
  let res := m31MulValue a.value rhs.value
  let cs ← cs.insert_script GadgetId.m31MultGadget [a.var, rhs.var] Options.new
  M31Var.new_variable cs res AllocationMode.FunctionOutput

/-- `M31Var::is_one` (m31.rs lines 127–132); the `assert_eq!` panic is an
error in the model. -/
def M31Var.is_one (cs : ConstraintSystem) (a : M31Var) :
    Except String ConstraintSystem :=
  if a.value ≠ 1 then
    .error "assertion failed: self.value == 1"
  else
    cs.insert_script GadgetId.m31IsOneGadget [a.var] Options.new

/-- `M31Var::inverse_without_table` (m31.rs lines 154–161): allocates
`pow2147483645(self.value)` as a hint, multiplies, and verifies the
product is one. -/
def M31Var.inverse_without_table (cs : ConstraintSystem) (a : M31Var) :
    Except String (M31Var × ConstraintSystem) := do
  let (inv, cs) ← M31Var.new_variable cs (pow2147483645 a.value) AllocationMode.Hint
  let (res, cs) ← M31Var.mul cs a inv
  let cs ← M31Var.is_one cs res
  .ok (inv, cs)

/-! ### `HashVar`, from `src/builtins/hash.rs` -/

/-- `bitcoin_num_to_bytes` (hash.rs lines 135–139) delegates to
`bitcoin::script::write_scriptint`: minimally-encoded signed little-endian.
This is the loop of `write_scriptint` for a non-zero magnitude; `fuel`
bounds the number of low-byte extractions (an `i64` magnitude has at most
eight bytes, so fuel `9` never runs out and the recursion stays
structural/kernel-reducible). -/
def scriptintBytesAux (fuel : Nat) (a : Nat) (neg : Bool) : List Nat :=
  match fuel with
  | 0 => []
  | f + 1 =>
    if 255 < a then a % 256 :: scriptintBytesAux f (a / 256) neg
    else if 128 ≤ a then [a, if neg then 128 else 0]
    else [a + (if neg then 128 else 0)]

def scriptintBytes (a : Nat) (neg : Bool) : List Nat :=
  scriptintBytesAux 9 a neg

def bitcoin_num_to_bytes (v : Int) : List Nat :=
  if v = 0 then [] else scriptintBytes v.natAbs (v < 0)

/-- Byte encoding used by `HashVar::from` for each memory element. -/
def encodeElement : Element → List Nat
  | Element.Num v => bitcoin_num_to_bytes v
  | Element.Str s => s

structure HashVar where
  var : Nat
  value : List Nat
deriving DecidableEq, Repr

/-- `impl Add for &HashVar` (hash.rs lines 56–71): `self + rhs` hashes the
right operand's bytes first, and records `hash_combine` with the operand
ids in the order `[rhs, self]`. -/
def HashVar.add (cs : ConstraintSystem) (a rhs : HashVar) :
    Except String (HashVar × ConstraintSystem) := do
  let hash := sha256 (rhs.value ++ a.value)
  let cs ← cs.insert_script GadgetId.hashCombine [rhs.var, a.var] Options.new
  let (idx, cs) ← cs.alloc (Element.Str hash) AllocationMode.FunctionOutput
  .ok (⟨idx, hash⟩, cs)

/-- One step of the `From<&T> for HashVar` fold (hash.rs lines 87–102):
hash the element's encoding, appending the running hash when present. -/
def hashFromStep (cur : Option (List Nat)) (e : Element) : Option (List Nat) :=
  match cur with
  | none => some (sha256 (encodeElement e))
  | some h => some (sha256 (encodeElement e ++ h))

/-- The value computed by `HashVar::from` over the element list of the
variable's ids in stack order (deepest first): the ids are processed in
**reverse** order with no initial hash. -/
def hashVarFromValue (elems : List Element) : Option (List Nat) :=
  elems.reverse.foldl hashFromStep none

/-- `impl From<&T> for HashVar` (hash.rs lines 82–111). -/
def HashVar.from (cs : ConstraintSystem) (vars : List Nat) :
    Except String (HashVar × ConstraintSystem) := do
  let cur ← vars.reverse.foldlM
    (fun cur v => do
      let e ← cs.get_element v
      pure (hashFromStep cur e))
    (Option.none)
  let opts := Options.new.with_u32 "len" vars.length
  let cs ← cs.insert_script GadgetId.hashMany vars opts
  match cur with
  | none => .error "called unwrap on a None value"
  | some h => do
    let (idx, cs) ← cs.alloc (Element.Str h) AllocationMode.FunctionOutput
    .ok (⟨idx, h⟩, cs)

/-- Spec-side fold written from the claim's words: start with the SHA-256 of
the byte encoding of the length, then fold the ids **in order** with
`h ← SHA-256(encode(element) ‖ h)`.  For comparison with `hashVarFromValue`. -/
def specHashVarFromValue (elems : List Element) : List Nat :=
  elems.foldl (fun h e => sha256 (encodeElement e ++ h))
    (sha256 (bitcoin_num_to_bytes (elems.length : Int)))

/-! ### The log-data memory, from `src/ldm.rs`

A written or read variable is represented by its list of memory ids; the
serialized `value_map` entry is modelled by that id list's elements. -/

structure LDM where
  value_map : List (List Nat)
  hash_map : List (List Nat)
  write_hash_var : Option HashVar
  read_hash_var : Option HashVar
  read_log : List Nat
deriving Repr

/-- `LDM::write` (ldm.rs lines 51–67): hash the written variable and chain
it into the running write hash via the `HashVar` combiner. -/
def LDM.write (cs : ConstraintSystem) (ldm : LDM) (value_vars : List Nat) :
    Except String (LDM × ConstraintSystem) := do
  match ldm.write_hash_var with
  | none => .error "The WORMMemory is not bound to a constraint system."
  | some wh => do
    let ldm := { ldm with value_map := ldm.value_map ++ [value_vars] }
    let (hash_var, cs) ← HashVar.from cs value_vars
    let ldm := { ldm with hash_map := ldm.hash_map ++ [hash_var.value] }
    let (wh2, cs) ← HashVar.add cs wh hash_var
    .ok ({ ldm with write_hash_var := some wh2 }, cs)

/-- `LDM::read` (ldm.rs lines 69–79), for a variable whose hint re-allocation
produces ids `hint_vars`: fold the hint's hash into the running read hash. -/
def LDM.read (cs : ConstraintSystem) (ldm : LDM) (idx : Nat)
    (hint_vars : List Nat) : Except String (LDM × ConstraintSystem) := do
  match ldm.read_hash_var with
  | none => .error "called unwrap on a None value"
  | some rh => do
    let (hash_var, cs) ← HashVar.from cs hint_vars
    let (rh2, cs) ← HashVar.add cs rh hash_var
    .ok ({ ldm with read_hash_var := some rh2,
                    read_log := ldm.read_log ++ [idx] }, cs)

/-- Spec-side combiner from the claim's words: the running hash `acc` absorbs
a new 32-byte hash `h` as `SHA-256(h ‖ acc)`. -/
def combineStep (acc h : List Nat) : List Nat := sha256 (h ++ acc)

/-- The amended `HashVar::from` reduction, written as a clean recursion: fold
the remaining elements (already reversed, i.e. shallowest first) into the
running hash with `h ← SHA-256(encode(element) ‖ h)`. -/
def specHashFoldRev : List Element → List Nat → List Nat
  | [], h => h
  | e :: rest, h => specHashFoldRev rest (sha256 (encodeElement e ++ h))

/-- The trace entries appended by `ConstraintSystem::alloc` for each mode
(constraint_system.rs lines 149–155); `ProgramInput` appends none. -/
def traceEntryOfMode (mode : AllocationMode) (idx : Nat) : List TraceEntry :=
  match mode with
  | AllocationMode.Constant => [TraceEntry.DeclareConstant idx]
  | AllocationMode.Hint => [TraceEntry.RequestHint idx]
  | AllocationMode.FunctionOutput => [TraceEntry.DeclareOutput idx]
  | AllocationMode.ProgramInput => []

/-- `TableVar::new_constant` (table/mod.rs lines 89–101): allocates every
table entry, in reverse order, as a constant. -/
def TableVar.new_constant (cs : ConstraintSystem) :
    Except String (List Nat × ConstraintSystem) :=
  get_table.reverse.foldlM
    (fun (p : List Nat × ConstraintSystem) elem => do
      let (idx, cs) ← p.2.alloc (Element.Num (Int.ofNat elem))
        AllocationMode.Constant
      Except.ok (p.1 ++ [idx], cs))
    ([], cs)

/-! ### The planner/compiler, from `src/compiler.rs` over the DSL of `src/dsl.rs`

`Compiler::compiler` walks the trace once.  Registries are association lists;
the data-type registry maps a type name to its `element_type.len()` and the
function registry maps a function name to its declared input/output type
names.  A generator's emitted snippet is modelled as a single
`SubprogramCall` op carrying the deferred-reference positions passed to it. -/

structure DslMemoryEntry where
  data_type : String
  dataLen : Nat
deriving DecidableEq, Repr

inductive DslTraceEntry
  | FunctionCall (name : String) (inputs : List Nat)
  | AllocatedConstant (idx : Nat)
deriving DecidableEq, Repr

structure FunctionMetadata where
  input : List String
  output : List String
deriving DecidableEq, Repr

structure DSL where
  data_type_registry : List (String × Nat)
  function_registry : List (String × FunctionMetadata)
  memory : List (Nat × DslMemoryEntry)
  memory_last_idx : Nat
  trace : List DslTraceEntry
  num_inputs : Option Nat
  hint : List DslMemoryEntry
  output : List Nat
deriving Repr

def registryGet {α : Type} (m : List (String × α)) (k : String) : Option α :=
  (m.find? (fun p => p.1 = k)).map Prod.snd

def dslMemGet (m : List (Nat × DslMemoryEntry)) (idx : Nat) :
    Option DslMemoryEntry :=
  (m.find? (fun p => p.1 = idx)).map Prod.snd

/-- Step 1 of `Compiler::compiler` (compiler.rs lines 13–28): the last-visit
timestamp of every memory id, over `FunctionCall` entries only. -/
def computeLastVisit (num_memory_entries : Nat) (trace : List DslTraceEntry) :
    List Int :=
  (trace.foldl
    (fun acc e =>
      match e with
      | DslTraceEntry.FunctionCall _ inputs =>
          (inputs.foldl (fun lv i => lv.set i acc.2) acc.1, acc.2 + 1)
      | _ => acc)
    (List.replicate num_memory_entries (-1 : Int), (0 : Int))).1

/-- The roll-vs-pick condition of the main walk (compiler.rs lines 85–87):
`last_visit[input_idx] == cur_time && !inputs[i..].contains(&input_idx)
&& !dsl.output.contains(&input_idx)`. -/
def compilerChoosesRoll (last_visit : List Int) (cur_time : Int)
    (output : List Nat) (inputs : List Nat) (i : Nat) (input_idx : Nat) : Bool :=
  last_visit.getD input_idx (-1) == cur_time
    && !((inputs.drop i).contains input_idx)
    && !(output.contains input_idx)

/-- `input_type.starts_with("&")`, on the character list (kernel-reducible). -/
def strIsRefType (s : String) : Bool :=
  match s.toList with
  | c :: _ => c = '&'
  | [] => false

/-- `input_type.split_at(1).1`: the type name with the leading `&` removed. -/
def strStripRef (s : String) : String :=
  ⟨s.toList.drop 1⟩

/-- The per-input loop of a `FunctionCall` (compiler.rs lines 59–116):
iterates over `inputs.zip(metadata.input).enumerate()`, deferring `&`-typed
operands and emitting `len` copies of the positional roll/pick for the rest. -/
def compileCallInputs (dsl : DSL) (last_visit : List Int) (cur_time : Int)
    (inputs : List Nat) :
    List (Nat × String) → Nat → Stack → List Op → Nat → List Nat →
    Except String (Stack × List Op × Nat × List Nat)
  | [], _, st, script, num_cloned, deferred =>
      .ok (st, script, num_cloned, deferred)
  | (input_idx, input_type) :: rest, i, st, script, num_cloned, deferred =>
    let input_type_name :=
      if strIsRefType input_type then strStripRef input_type else input_type
    match registryGet dsl.data_type_registry input_type_name with
    | none => .error "unknown data type"
    | some len =>
      if strIsRefType input_type then
        compileCallInputs dsl last_visit cur_time inputs rest (i + 1) st script
          num_cloned (deferred ++ [input_idx])
      else do
        let pos ← st.get_relative_position input_idx
        if compilerChoosesRoll last_visit cur_time dsl.output inputs i input_idx then do
          let st ← st.pull input_idx
          compileCallInputs dsl last_visit cur_time inputs rest (i + 1) st
            (script ++ List.replicate len (Op.OP_ROLL (pos + num_cloned)))
            (num_cloned + len) deferred
        else
          compileCallInputs dsl last_visit cur_time inputs rest (i + 1) st
            (script ++ List.replicate len (Op.OP_PICK (pos + num_cloned)))
            (num_cloned + len) deferred

/-- Processing of one `FunctionCall` trace entry (compiler.rs lines 52–142). -/
def compileFunctionCall (dsl : DSL) (last_visit : List Int) (cur_time : Int)
    (function_name : String) (inputs : List Nat) (st : Stack)
    (script : List Op) (allocated_idx : Nat) :
    Except String (Stack × List Op × Nat) := do
  match registryGet dsl.function_registry function_name with
  | none => .error "unknown function"
  | some meta => do
    let (st, script, _, deferred) ←
      compileCallInputs dsl last_visit cur_time inputs
        (inputs.zip meta.input) 0 st script 0 []
    let ref_positions ← deferred.mapM st.get_relative_position
    let script := script ++ [Op.SubprogramCall function_name ref_positions]
    let (st, allocated_idx) ← meta.output.foldlM
      (fun (p : Stack × Nat) output_type => do
        match registryGet dsl.data_type_registry output_type with
        | none => .error "unknown data type"
        | some len => do
          let st2 ← p.1.push_to_stack p.2 len
          .ok (st2, p.2 + 1))
      (st, allocated_idx)
    .ok (st, script, allocated_idx)

/-- Processing of one `AllocatedConstant` trace entry (compiler.rs
lines 143–159). -/
def compileConstant (dsl : DSL) (idx : Nat) (st : Stack) (script : List Op)
    (allocated_idx : Nat) : Except String (Stack × List Op × Nat) := do
  match dslMemGet dsl.memory idx with
  | none => .error "unknown memory entry"
  | some entry =>
    match registryGet dsl.data_type_registry entry.data_type with
    | none => .error "unknown data type"
    | some len => do
      let st ← st.push_to_stack idx len
      .ok (st, script ++ [Op.PushConst idx], allocated_idx + 1)

/-- The main walk over the trace (compiler.rs lines 50–161); `cur_time`
advances only on `FunctionCall`. -/
def compileTrace (dsl : DSL) (last_visit : List Int) :
    List DslTraceEntry → Int → Stack → List Op → Nat →
    Except String (Stack × List Op)
  | [], _, st, script, _ => .ok (st, script)
  | e :: rest, cur_time, st, script, allocated_idx =>
    match e with
    | DslTraceEntry.FunctionCall name inputs => do
      let (st, script, allocated_idx) ←
        compileFunctionCall dsl last_visit cur_time name inputs st script
          allocated_idx
      compileTrace dsl last_visit rest (cur_time + 1) st script allocated_idx
    | DslTraceEntry.AllocatedConstant idx => do
      let (st, script, allocated_idx) ←
        compileConstant dsl idx st script allocated_idx
      compileTrace dsl last_visit rest cur_time st script allocated_idx

/-- Step 4 of `Compiler::compiler` (lines 163–213): route outputs to the
altstack, processing the reversed output list.  The pick branch adds the
footprint to `output_total_len`; the roll branch does not (as in the
source). -/
def routeOutputs (output_list_rev : List Nat) :
    List Nat → Nat → Stack → List Op → Nat →
    Except String (Stack × List Op × Nat)
  | [], _, st, script, total => .ok (st, script, total)
  | idx :: rest, i, st, script, total =>
    if (output_list_rev.drop i).contains idx then do
      let pos ← st.get_relative_position idx
      let len ← st.get_length idx
      routeOutputs output_list_rev rest (i + 1) st
        (script ++ List.replicate len (Op.OP_PICK pos) ++
          List.replicate len Op.OP_TOALTSTACK)
        (total + len)
    else do
      let pos ← st.get_relative_position idx
      let len ← st.get_length idx
      let st ← st.pull idx
      routeOutputs output_list_rev rest (i + 1) st
        (script ++ List.replicate len (Op.OP_ROLL pos) ++
          List.replicate len Op.OP_TOALTSTACK)
        total

structure CompiledProgram where
  input : List DslMemoryEntry
  script : List Op
  hint : List DslMemoryEntry
deriving Repr

/-- `Compiler::compiler` (compiler.rs lines 12–235), end to end. -/
def Compiler.compiler (dsl : DSL) : Except String CompiledProgram := do
  let num_memory_entries := dsl.memory_last_idx
  let last_visit := computeLastVisit num_memory_entries dsl.trace
  let input ← match dsl.num_inputs with
    | some n => (List.range n).mapM (fun i =>
        match dslMemGet dsl.memory i with
        | some e => Except.ok e
        | none => Except.error "called unwrap on a None value")
    | none => Except.ok ([] : List DslMemoryEntry)
  let st := Stack.new dsl.memory_last_idx
  let st ← input.enum.foldlM
    (fun (st : Stack) p => st.push_to_stack p.1 p.2.dataLen) st
  let (st, script) ←
    compileTrace dsl last_visit dsl.trace 0 st [] (dsl.num_inputs.getD 0)
  let output_list_rev := dsl.output.reverse
  let (st, script, output_total_len) ←
    routeOutputs output_list_rev output_list_rev 0 st script 0
  let elements_in_stack ← st.get_num_elements_in_stack
  let script := script ++ List.replicate (elements_in_stack / 2) Op.OP_2DROP
    ++ List.replicate (elements_in_stack % 2) Op.OP_DROP
  let script := script ++ List.replicate output_total_len Op.OP_FROMALTSTACK
  .ok ⟨input, script, dsl.hint⟩

/-- A concrete planner input: two program inputs of type `m31` (footprint 1),
one call `add(0, 1)` producing id 2, and id 2 as the program output.  Id 0 is
last touched at time 0, does not appear after position 0 in the call's input
list, and is not a program output, so the spec's main-walk rule chooses
roll for it. -/
def smallDsl : DSL :=
  { data_type_registry := [("m31", 1)]
    function_registry := [("add", ⟨["m31", "m31"], ["m31"]⟩)]
    memory := [(0, ⟨"m31", 1⟩), (1, ⟨"m31", 1⟩), (2, ⟨"m31", 1⟩)]
    memory_last_idx := 3
    trace := [DslTraceEntry.FunctionCall "add" [0, 1]]
    num_inputs := some 2
    hint := []
    output := [2] }

/-- A second concrete planner input with a footprint-2 type: one `cm31`
program input, one call producing a `cm31` output (id 1), and id 1 declared
as the program output.  Its single occurrence in the reversed output list is
the last one, so the spec's routing rule chooses roll for it. -/
def smallDsl2 : DSL :=
  { data_type_registry := [("cm31", 2)]
    function_registry := [("f", ⟨["cm31"], ["cm31"]⟩)]
    memory := [(0, ⟨"cm31", 2⟩), (1, ⟨"cm31", 2⟩)]
    memory_last_idx := 2
    trace := [DslTraceEntry.FunctionCall "f" [0]]
    num_inputs := some 1
    hint := []
    output := [1] }

/-- A concrete stack-model state: id 0 present with footprint 2, id 1
absent, id 2 present with footprint 1. -/
def sampleStack : Stack :=
  ⟨[StackElementStatus.PRESENT 2, StackElementStatus.ABSENT,
    StackElementStatus.PRESENT 1], [2, 0, 1], 3⟩

/-! ## Shared lemmas about the recording layer -/

theorem except_bind_ok {α β : Type} (a : α) (f : α → Except String β) :
    (Except.ok a : Except String α) >>= f = f a := rfl

theorem except_bind_error {α β : Type} (e : String) (f : α → Except String β) :
    (Except.error e : Except String α) >>= f = Except.error e := rfl

theorem except_map_ok {α β : Type} (g : α → β) (a : α) :
    g <$> (Except.ok a : Except String α) = .ok (g a) := rfl

theorem except_map_error {α β : Type} (g : α → β) (e : String) :
    g <$> (Except.error e : Except String α) = .error e := rfl

theorem memGet_none_of_keys_lt (m : List (Nat × Element)) (idx : Nat)
    (h : ∀ p ∈ m, p.1 < idx) : memGet m idx = none := by
  have hf : List.find? (fun p => decide (p.1 = idx)) m = none := by
    rw [List.find?_eq_none]
    intro p hp
    simpa using Nat.ne_of_lt (h p hp)
  simp [memGet, hf]

theorem keys_lt_append (m : List (Nat × Element)) (i : Nat) (d : Element)
    (h : ∀ p ∈ m, p.1 < i) : ∀ p ∈ m ++ [(i, d)], p.1 < i + 1 := by
  intro p hp
  rcases List.mem_append.mp hp with h1 | h1
  · exact Nat.lt_succ_of_lt (h p h1)
  · rcases List.mem_singleton.mp h1 with rfl
    simp

theorem alloc_ok_nonInput (cs : ConstraintSystem) (data : Element)
    (mode : AllocationMode) (hfin : cs.finalized = false)
    (hmode : mode ≠ AllocationMode.ProgramInput)
    (hkeys : ∀ p ∈ cs.memory, p.1 < cs.memory_last_idx) :
    cs.alloc data mode = .ok (cs.memory_last_idx,
      { memory := cs.memory ++ [(cs.memory_last_idx, data)],
        memory_last_idx := cs.memory_last_idx + 1,
        trace := cs.trace ++ traceEntryOfMode mode cs.memory_last_idx,
        num_inputs := if cs.num_inputs = none then some cs.memory_last_idx
          else cs.num_inputs,
        finalized := false }) := by
  have hget : memGet cs.memory cs.memory_last_idx = none :=
    memGet_none_of_keys_lt _ _ hkeys
  rcases hni : cs.num_inputs with _ | k <;>
    rcases mode <;>
      simp_all [ConstraintSystem.alloc, traceEntryOfMode, hget]

theorem insert_script_ok (cs : ConstraintSystem) (g : GadgetId)
    (inputs : List Nat) (opts : Options) (hfin : cs.finalized = false) :
    cs.insert_script g inputs opts = .ok
      { cs with
        num_inputs := if cs.num_inputs = none then some cs.memory_last_idx
          else cs.num_inputs,
        trace := cs.trace ++ [TraceEntry.InsertScript g inputs opts] } := by
  rcases hni : cs.num_inputs with _ | k <;>
    simp_all [ConstraintSystem.insert_script]

/-- Symbolic run of `impl Mul for &M31Var`: one `InsertScript` entry followed
by the function-output allocation. -/
theorem m31_mul_ok (cs : ConstraintSystem) (a b : M31Var)
    (hfin : cs.finalized = false)
    (hkeys : ∀ p ∈ cs.memory, p.1 < cs.memory_last_idx) :
    M31Var.mul cs a b = .ok
      (⟨cs.memory_last_idx, m31MulValue a.value b.value⟩,
       { memory := cs.memory ++ [(cs.memory_last_idx,
           Element.Num (u32AsI32 (m31MulValue a.value b.value)))],
         memory_last_idx := cs.memory_last_idx + 1,
         trace := cs.trace ++
           [TraceEntry.InsertScript GadgetId.m31MultGadget [a.var, b.var]
              Options.new,
            TraceEntry.DeclareOutput cs.memory_last_idx],
         num_inputs := if cs.num_inputs = none then some cs.memory_last_idx
           else cs.num_inputs,
         finalized := false }) := by
  have e1 := insert_script_ok cs GadgetId.m31MultGadget [a.var, b.var]
    Options.new hfin
  have e2 := alloc_ok_nonInput
    { cs with
      num_inputs := if cs.num_inputs = none then some cs.memory_last_idx
        else cs.num_inputs,
      trace := cs.trace ++
        [TraceEntry.InsertScript GadgetId.m31MultGadget [a.var, b.var]
           Options.new] }
    (Element.Num (u32AsI32 (m31MulValue a.value b.value)))
    AllocationMode.FunctionOutput (by simp [hfin]) (by simp) hkeys
  simp only [M31Var.mul, M31Var.new_variable, e1, e2, except_bind_ok]
  rcases hni : cs.num_inputs with _ | k <;>
    simp_all [traceEntryOfMode, except_bind_ok]

/-! ## Mersenne-31 number theory (for the inversion claim) -/

theorem sqn_modeq (n v : Nat) : sqn n v ≡ v ^ (2 ^ n) [MOD 2147483647] := by
  induction n generalizing v with
  | zero => simpa using Nat.ModEq.refl v
  | succ m ih =>
    have h1 : sqn (m + 1) v = sqn m (mul_m31 v v) := rfl
    rw [h1]
    have h2 : mul_m31 v v ≡ v * v [MOD 2147483647] := Nat.mod_modEq _ _
    calc sqn m (mul_m31 v v)
        ≡ (mul_m31 v v) ^ (2 ^ m) [MOD 2147483647] := ih _
      _ ≡ (v * v) ^ (2 ^ m) [MOD 2147483647] := h2.pow _
      _ = v ^ (2 ^ (m + 1)) := by rw [← pow_two, ← pow_mul, pow_succ, Nat.mul_comm]

theorem mul_m31_lt (a b : Nat) : mul_m31 a b < 2147483647 :=
  Nat.mod_lt _ (by norm_num)

/-- One step of the addition chain: squaring `k` times then multiplying
composes exponents as `e * 2^k + f`. -/
theorem chain_step (x t s e f k : Nat)
    (ht : t ≡ x ^ e [MOD 2147483647]) (hs : s ≡ x ^ f [MOD 2147483647]) :
    mul_m31 (sqn k t) s ≡ x ^ (e * 2 ^ k + f) [MOD 2147483647] := by
  have h1 : sqn k t ≡ t ^ (2 ^ k) [MOD 2147483647] := sqn_modeq k t
  have h2 : t ^ (2 ^ k) ≡ (x ^ e) ^ (2 ^ k) [MOD 2147483647] := ht.pow _
  have h3 : sqn k t * s ≡ x ^ (e * 2 ^ k) * x ^ f [MOD 2147483647] := by
    refine Nat.ModEq.mul ?_ hs
    calc sqn k t ≡ (x ^ e) ^ (2 ^ k) [MOD 2147483647] := h1.trans h2
      _ = x ^ (e * 2 ^ k) := by rw [← pow_mul]
  calc mul_m31 (sqn k t) s ≡ sqn k t * s [MOD 2147483647] := Nat.mod_modEq _ _
    _ ≡ x ^ (e * 2 ^ k) * x ^ f [MOD 2147483647] := h3
    _ = x ^ (e * 2 ^ k + f) := by rw [← pow_add]

theorem pow2147483645_modeq (x : Nat) :
    pow2147483645 x ≡ x ^ 2147483645 [MOD 2147483647] := by
  have h0 : x ≡ x ^ 1 [MOD 2147483647] := by simpa using Nat.ModEq.refl x
  have t0 := chain_step x x x 1 1 2 h0 h0
  norm_num at t0
  have t1 := chain_step x _ _ 5 5 1 t0 t0
  norm_num at t1
  have t2 := chain_step x _ _ 15 5 3 t1 t0
  norm_num at t2
  have t3 := chain_step x _ _ 125 5 1 t2 t0
  norm_num at t3
  have t4 := chain_step x _ _ 255 255 8 t3 t3
  norm_num at t4
  have t5 := chain_step x _ _ 65535 255 8 t4 t3
  norm_num at t5
  have t6 := chain_step x _ _ 16777215 125 7 t5 t2
  norm_num at t6
  exact t6

/-- `2^31 - 1` is prime (Lucas–Lehmer). -/
theorem m31_prime : Nat.Prime 2147483647 := by
  have h := lucas_lehmer_sufficiency 31 (by norm_num) (by norm_num)
  have hm : mersenne 31 = 2147483647 := by norm_num [mersenne]
  rwa [hm] at h

theorem pow2147483645_eq (x : Nat) :
    pow2147483645 x = x ^ 2147483645 % 2147483647 := by
  have h : pow2147483645 x % 2147483647 = x ^ 2147483645 % 2147483647 :=
    pow2147483645_modeq x
  have hlt : pow2147483645 x < 2147483647 := mul_m31_lt _ _
  omega

/-- Fermat consequence: multiplying by the chain's result gives `1` for
every non-zero residue. -/
theorem mul_pow2147483645_eq_one (x : Nat) (h1 : 1 ≤ x)
    (h2 : x ≤ 2147483646) : mul_m31 x (pow2147483645 x) = 1 := by
  have hnd : ¬ (2147483647 ∣ x) := Nat.not_dvd_of_pos_of_lt (by omega) (by omega)
  have hcop : Nat.Coprime x 2147483647 :=
    ((Nat.Prime.coprime_iff_not_dvd m31_prime).mpr hnd).symm
  have heuler : x ^ (Nat.totient 2147483647) ≡ 1 [MOD 2147483647] :=
    Nat.ModEq.pow_totient hcop
  have htot : Nat.totient 2147483647 = 2147483646 :=
    Nat.totient_prime m31_prime
  rw [htot] at heuler
  have hmul : x * pow2147483645 x ≡ x ^ 2147483646 [MOD 2147483647] := by
    calc x * pow2147483645 x
        ≡ x ^ 1 * (x ^ 2147483645 % 2147483647) [MOD 2147483647] := by
          rw [pow2147483645_eq, pow_one]
      _ ≡ x ^ 1 * x ^ 2147483645 [MOD 2147483647] :=
          Nat.ModEq.mul_left _ (Nat.mod_modEq _ _)
      _ = x ^ 2147483646 := by rw [← pow_add]
  have hfin : x * pow2147483645 x % 2147483647 = 1 % 2147483647 :=
    hmul.trans heuler
  unfold mul_m31
  omega

/-- Symbolic run of `M31Var::inverse_without_table`: allocate the chain's
result as a hint, multiply, verify the product is one. -/
theorem inverse_without_table_steps (cs : ConstraintSystem) (a : M31Var)
    (hfin : cs.finalized = false)
    (hkeys : ∀ p ∈ cs.memory, p.1 < cs.memory_last_idx)
    (hone : m31MulValue a.value (pow2147483645 a.value) = 1) :
    M31Var.inverse_without_table cs a = .ok
      (⟨cs.memory_last_idx, pow2147483645 a.value⟩,
       { memory := cs.memory ++
           [(cs.memory_last_idx, Element.Num (u32AsI32 (pow2147483645 a.value))),
            (cs.memory_last_idx + 1,
              Element.Num (u32AsI32 (m31MulValue a.value (pow2147483645 a.value))))],
         memory_last_idx := cs.memory_last_idx + 2,
         trace := cs.trace ++
           [TraceEntry.RequestHint cs.memory_last_idx,
            TraceEntry.InsertScript GadgetId.m31MultGadget
              [a.var, cs.memory_last_idx] Options.new,
            TraceEntry.DeclareOutput (cs.memory_last_idx + 1),
            TraceEntry.InsertScript GadgetId.m31IsOneGadget
              [cs.memory_last_idx + 1] Options.new],
         num_inputs := if cs.num_inputs = none then some cs.memory_last_idx
           else cs.num_inputs,
         finalized := false }) := by
  have e1 := alloc_ok_nonInput cs
    (Element.Num (u32AsI32 (pow2147483645 a.value))) AllocationMode.Hint hfin
    (by simp) hkeys
  have e2 := m31_mul_ok
    { memory := cs.memory ++
        [(cs.memory_last_idx, Element.Num (u32AsI32 (pow2147483645 a.value)))],
      memory_last_idx := cs.memory_last_idx + 1,
      trace := cs.trace ++ traceEntryOfMode AllocationMode.Hint cs.memory_last_idx,
      num_inputs := if cs.num_inputs = none then some cs.memory_last_idx
        else cs.num_inputs,
      finalized := false }
    a ⟨cs.memory_last_idx, pow2147483645 a.value⟩ rfl
    (keys_lt_append _ _ _ hkeys)
  have e3 := insert_script_ok
    { memory := (cs.memory ++
        [(cs.memory_last_idx, Element.Num (u32AsI32 (pow2147483645 a.value)))]) ++
        [(cs.memory_last_idx + 1,
          Element.Num (u32AsI32 (m31MulValue a.value (pow2147483645 a.value))))],
      memory_last_idx := cs.memory_last_idx + 1 + 1,
      trace := (cs.trace ++ traceEntryOfMode AllocationMode.Hint cs.memory_last_idx) ++
        [TraceEntry.InsertScript GadgetId.m31MultGadget
           [a.var, cs.memory_last_idx] Options.new,
         TraceEntry.DeclareOutput (cs.memory_last_idx + 1)],
      num_inputs := if (if cs.num_inputs = none then some cs.memory_last_idx
          else cs.num_inputs) = none then some (cs.memory_last_idx + 1)
        else if cs.num_inputs = none then some cs.memory_last_idx
          else cs.num_inputs,
      finalized := false }
    GadgetId.m31IsOneGadget [cs.memory_last_idx + 1] Options.new rfl
  simp only [M31Var.inverse_without_table, M31Var.new_variable, M31Var.is_one,
    e1, except_bind_ok, traceEntryOfMode] at e2 ⊢
  simp only [e2, except_bind_ok, hone]
  rcases hni : cs.num_inputs with _ | k <;>
    simp_all [M31Var.is_one, ConstraintSystem.insert_script, hone,
      except_bind_ok, Nat.add_assoc]

/-! ## Claim C2 -/

/-- C2: the claim states that `M31Var` addition returns
`(a + b) mod (2^31 - 1)` and subtraction `(a - b) mod (2^31 - 1)`, both again
in `[0, 2^31 - 1)`.  The code parses `a + b % P` as `a + (b % P)` and never
reduces the final sum or difference: at `a = 2^31 - 2, b = 1` the computed
sum is `2^31 - 1` (the claim requires `0`), and at `a = b = 1` the computed
difference is `2^31 - 1` (the claim requires `0`); both escape the claimed
range. -/
theorem m31_add_sub_value_unreduced :
    m31AddValue 2147483646 1 = 2147483647 ∧
    (2147483646 + 1) % 2147483647 = 0 ∧
    ¬ m31AddValue 2147483646 1 < 2147483647 ∧
    m31SubValue 1 1 = 2147483647 ∧
    (2147483647 + 1 - 1) % 2147483647 = 0 ∧
    ¬ m31SubValue 1 1 < 2147483647 := by
  refine ⟨by decide, by decide, by decide, by decide, by decide, by decide⟩

/-! ## Claim C7 -/

/-- C7: for every `x` with `1 ≤ x ≤ 2^31 - 2`, the fixed addition chain
`pow2147483645` computes `x^(2^31 - 3) mod (2^31 - 1)`, hence
`mul_m31 x (pow2147483645 x) = 1`; and `M31Var::inverse_without_table`
allocates exactly this value as a hint and records the multiplication and
the `x · x⁻¹ == 1` verification in the trace. -/
theorem pow_chain_and_inverse_hint (cs : ConstraintSystem) (a : M31Var)
    (hfin : cs.finalized = false)
    (hkeys : ∀ p ∈ cs.memory, p.1 < cs.memory_last_idx)
    (h1 : 1 ≤ a.value) (h2 : a.value ≤ 2147483646) :
    pow2147483645 a.value = a.value ^ 2147483645 % 2147483647 ∧
    mul_m31 a.value (pow2147483645 a.value) = 1 ∧
    M31Var.inverse_without_table cs a = .ok
      (⟨cs.memory_last_idx, pow2147483645 a.value⟩,
       { memory := cs.memory ++
           [(cs.memory_last_idx, Element.Num (u32AsI32 (pow2147483645 a.value))),
            (cs.memory_last_idx + 1,
              Element.Num (u32AsI32 (m31MulValue a.value (pow2147483645 a.value))))],
         memory_last_idx := cs.memory_last_idx + 2,
         trace := cs.trace ++
           [TraceEntry.RequestHint cs.memory_last_idx,
            TraceEntry.InsertScript GadgetId.m31MultGadget
              [a.var, cs.memory_last_idx] Options.new,
            TraceEntry.DeclareOutput (cs.memory_last_idx + 1),
            TraceEntry.InsertScript GadgetId.m31IsOneGadget
              [cs.memory_last_idx + 1] Options.new],
         num_inputs := if cs.num_inputs = none then some cs.memory_last_idx
           else cs.num_inputs,
         finalized := false }) := by
  have hone : m31MulValue a.value (pow2147483645 a.value) = 1 := by
    simpa [m31MulValue, mul_m31] using mul_pow2147483645_eq_one a.value h1 h2
  exact ⟨pow2147483645_eq a.value,
    mul_pow2147483645_eq_one a.value h1 h2,
    inverse_without_table_steps cs a hfin hkeys hone⟩

set_option maxRecDepth 2000 in
/-- Witness for C7 at `x = 7` on a fresh constraint system. -/
theorem pow_chain_and_inverse_hint_witness :
    (ConstraintSystem.new.finalized = false) ∧
    (∀ p ∈ ConstraintSystem.new.memory, p.1 < ConstraintSystem.new.memory_last_idx) ∧
    (1 ≤ (⟨0, 7⟩ : M31Var).value) ∧ ((⟨0, 7⟩ : M31Var).value ≤ 2147483646) ∧
    (pow2147483645 (⟨0, 7⟩ : M31Var).value =
       (⟨0, 7⟩ : M31Var).value ^ 2147483645 % 2147483647 ∧
     mul_m31 (⟨0, 7⟩ : M31Var).value (pow2147483645 (⟨0, 7⟩ : M31Var).value) = 1 ∧
     M31Var.inverse_without_table ConstraintSystem.new ⟨0, 7⟩ = .ok
      (⟨ConstraintSystem.new.memory_last_idx,
         pow2147483645 (⟨0, 7⟩ : M31Var).value⟩,
       { memory := ConstraintSystem.new.memory ++
           [(ConstraintSystem.new.memory_last_idx,
              Element.Num (u32AsI32 (pow2147483645 (⟨0, 7⟩ : M31Var).value))),
            (ConstraintSystem.new.memory_last_idx + 1,
              Element.Num (u32AsI32 (m31MulValue (⟨0, 7⟩ : M31Var).value
                (pow2147483645 (⟨0, 7⟩ : M31Var).value))))],
         memory_last_idx := ConstraintSystem.new.memory_last_idx + 2,
         trace := ConstraintSystem.new.trace ++
           [TraceEntry.RequestHint ConstraintSystem.new.memory_last_idx,
            TraceEntry.InsertScript GadgetId.m31MultGadget
              [(⟨0, 7⟩ : M31Var).var, ConstraintSystem.new.memory_last_idx]
              Options.new,
            TraceEntry.DeclareOutput (ConstraintSystem.new.memory_last_idx + 1),
            TraceEntry.InsertScript GadgetId.m31IsOneGadget
              [ConstraintSystem.new.memory_last_idx + 1] Options.new],
         num_inputs := if ConstraintSystem.new.num_inputs = none
           then some ConstraintSystem.new.memory_last_idx
           else ConstraintSystem.new.num_inputs,
         finalized := false })) :=
  ⟨rfl, by simp [ConstraintSystem.new], by decide, by decide,
   pow_chain_and_inverse_hint ConstraintSystem.new ⟨0, 7⟩ rfl
     (by simp [ConstraintSystem.new]) (by decide) (by decide)⟩

/-! ## Claim C8 -/

theorem to_positive_limbs_list_length (v l n : Nat) :
    (to_positive_limbs_list v l n).length = n := by
  induction n generalizing v with
  | zero => rfl
  | succ m ih => simp [to_positive_limbs_list, ih]

theorem to_positive_limbs_list_mem_lt (v l n : Nat) :
    ∀ d ∈ to_positive_limbs_list v l n, d < 2 ^ l := by
  induction n generalizing v with
  | zero => simp [to_positive_limbs_list]
  | succ m ih =>
    intro d hd
    rcases hd with _ | ⟨_, hd⟩
    · calc v % 2 ^ l % 256 ≤ v % 2 ^ l := Nat.mod_le _ _
        _ < 2 ^ l := Nat.mod_lt _ (Nat.pos_pow_of_pos l (by omega))
    · exact ih _ d hd

theorem to_positive_limbs_list_recompose (v l n : Nat) (hl8 : l ≤ 8) :
    recompose_limbs l (to_positive_limbs_list v l n) = v % 2 ^ (l * n) := by
  induction n generalizing v with
  | zero => simp [to_positive_limbs_list, recompose_limbs, Nat.mod_one]
  | succ m ih =>
    have hmask : v % 2 ^ l % 256 = v % 2 ^ l := by
      apply Nat.mod_eq_of_lt
      calc v % 2 ^ l < 2 ^ l := Nat.mod_lt _ (Nat.pos_pow_of_pos l (by omega))
        _ ≤ 256 := by
          calc (2 : Nat) ^ l ≤ 2 ^ 8 := Nat.pow_le_pow_right (by omega) hl8
            _ = 256 := by norm_num
    have hsplit : v % (2 ^ l * 2 ^ (l * m)) = v % 2 ^ l + 2 ^ l * (v / 2 ^ l % 2 ^ (l * m)) :=
      Nat.mod_mul
    calc recompose_limbs l (to_positive_limbs_list v l (m + 1))
        = v % 2 ^ l % 256 + 2 ^ l * recompose_limbs l (to_positive_limbs_list (v / 2 ^ l) l m) := by
          simp [to_positive_limbs_list, recompose_limbs]
      _ = v % 2 ^ l + 2 ^ l * (v / 2 ^ l % 2 ^ (l * m)) := by rw [hmask, ih]
      _ = v % (2 ^ l * 2 ^ (l * m)) := hsplit.symm
      _ = v % 2 ^ (l * (m + 1)) := by rw [← pow_add, Nat.mul_succ, Nat.add_comm]

/-- C8: for every non-negative `I32` value (so `v < 2^31`) and `1 ≤ l ≤ 8`,
`to_positive_limbs` yields `⌈32/l⌉ = (32 + l - 1) / l` limbs, each in
`[0, 2^l)`, and recomposing them in base `2^l` restores the value. -/
theorem to_positive_limbs_correct (v l : Nat) (hv : v < 2147483648)
    (hl1 : 1 ≤ l) (hl8 : l ≤ 8) :
    (to_positive_limbs v l).length = (32 + l - 1) / l ∧
    (∀ d ∈ to_positive_limbs v l, d < 2 ^ l) ∧
    recompose_limbs l (to_positive_limbs v l) = v := by
  refine ⟨to_positive_limbs_list_length _ _ _,
    to_positive_limbs_list_mem_lt _ _ _, ?_⟩
  rw [to_positive_limbs, to_positive_limbs_list_recompose _ _ _ hl8]
  apply Nat.mod_eq_of_lt
  have hln : 32 ≤ l * ((32 + l - 1) / l) := by
    have hdm := Nat.div_add_mod (32 + l - 1) l
    have hmlt : (32 + l - 1) % l < l := Nat.mod_lt _ (by omega)
    omega
  calc v < 2147483648 := hv
    _ = 2 ^ 31 := by norm_num
    _ ≤ 2 ^ (l * ((32 + l - 1) / l)) := Nat.pow_le_pow_right (by omega) (by omega)

/-- Witness for C8 at `v = 2147483647, l = 3` (eleven 3-bit limbs). -/
theorem to_positive_limbs_correct_witness :
    ((2147483647 : Nat) < 2147483648) ∧ (1 ≤ (3 : Nat)) ∧ ((3 : Nat) ≤ 8) ∧
    ((to_positive_limbs 2147483647 3).length = (32 + 3 - 1) / 3 ∧
     (∀ d ∈ to_positive_limbs 2147483647 3, d < 2 ^ 3) ∧
     recompose_limbs 3 (to_positive_limbs 2147483647 3) = 2147483647) :=
  ⟨by decide, by decide, by decide,
   to_positive_limbs_correct 2147483647 3 (by decide) (by decide) (by decide)⟩

/-! ## Claim C9 -/

/-- C9 counterexample: the table generated with `N = 9` has exactly `513`
entries, at indices `0 .. 512`; the claim's inclusive range `[0, 513]`
fails at `i = 513`, where the table has no entry at all. -/
theorem generate_table_no_entry_at_513 :
    ¬ (∀ i, i ≤ 513 → (get_table).get? i = some (i * i / 4)) := by
  intro h
  have h513 := h 513 (by omega)
  have hlen : (get_table).length = 513 := by
    simp [get_table, generate_table]
  rw [List.get?_eq_none.mpr (by omega)] at h513
  exact Option.noConfusion h513

/-- Folding constant allocations over a list of table entries: ids are
assigned densely from `memory_last_idx` and one `DeclareConstant` trace entry
is appended per element. -/
theorem tableVar_new_constant_fold (elems : List Nat) (acc : List Nat)
    (cs : ConstraintSystem) (hfin : cs.finalized = false)
    (hkeys : ∀ p ∈ cs.memory, p.1 < cs.memory_last_idx) :
    ∃ cs2, (elems.foldlM
      (fun (p : List Nat × ConstraintSystem) elem => do
        let (idx, cs) ← p.2.alloc (Element.Num (Int.ofNat elem))
          AllocationMode.Constant
        Except.ok (p.1 ++ [idx], cs))
      (acc, cs)) = .ok (acc ++ List.range' cs.memory_last_idx elems.length, cs2) ∧
      cs2.trace = cs.trace ++
        (List.range' cs.memory_last_idx elems.length).map TraceEntry.DeclareConstant ∧
      cs2.memory_last_idx = cs.memory_last_idx + elems.length ∧
      cs2.finalized = false ∧
      (∀ p ∈ cs2.memory, p.1 < cs2.memory_last_idx) := by
  induction elems generalizing acc cs with
  | nil =>
    refine ⟨cs, ?_, by simp [List.range'], by simp, hfin, hkeys⟩
    show pure (acc, cs) = Except.ok (acc ++ [], cs)
    rw [List.append_nil]
    rfl
  | cons e rest ih =>
    have e1 := alloc_ok_nonInput cs (Element.Num (Int.ofNat e))
      AllocationMode.Constant hfin (by simp) hkeys
    obtain ⟨cs2, hfold, htr, hlast, hfin2, hkeys2⟩ := ih (acc ++ [cs.memory_last_idx])
      { memory := cs.memory ++ [(cs.memory_last_idx, Element.Num (Int.ofNat e))],
        memory_last_idx := cs.memory_last_idx + 1,
        trace := cs.trace ++ traceEntryOfMode AllocationMode.Constant cs.memory_last_idx,
        num_inputs := if cs.num_inputs = none then some cs.memory_last_idx
          else cs.num_inputs,
        finalized := false }
      rfl (keys_lt_append _ _ _ hkeys)
    refine ⟨cs2, ?_, ?_, ?_, hfin2, hkeys2⟩
    · rw [List.foldlM_cons]
      simp only [e1, except_bind_ok]
      rw [hfold]
      have hr : List.range' cs.memory_last_idx (rest.length + 1) =
          cs.memory_last_idx :: List.range' (cs.memory_last_idx + 1) rest.length := rfl
      simp [hr]
    · simp only [htr, traceEntryOfMode]
      have hr : List.range' cs.memory_last_idx (rest.length + 1) =
          cs.memory_last_idx :: List.range' (cs.memory_last_idx + 1) rest.length := rfl
      simp [hr]
    · simp only [List.length_cons]
      simp at hlast
      omega

set_option maxRecDepth 100000 in
/-- C9 amended: `table[i] = ⌊i²/4⌋` for every `i ∈ [0, 512]`; the table has
`513` entries and `TableVar::length()` is `513`; `TableVar::new_constant`
places the table as `513` constant allocations. -/
theorem generate_table_entries :
    (get_table).length = 513 ∧ tableVarLength = 513 ∧
    (∀ i, i < 513 → (get_table).get? i = some (i * i / 4)) ∧
    (∃ cs2, TableVar.new_constant ConstraintSystem.new =
        .ok (List.range' 0 513, cs2) ∧
      cs2.trace = (List.range' 0 513).map TraceEntry.DeclareConstant) := by
  refine ⟨by simp [get_table, generate_table], rfl, ?_, ?_⟩
  · intro i hi
    simp [get_table, generate_table, List.get?_map, List.get?_range, hi]
  · obtain ⟨cs2, h1, h2, h3, _, _⟩ := tableVar_new_constant_fold
      get_table.reverse [] ConstraintSystem.new rfl (by simp [ConstraintSystem.new])
    have hlen : get_table.reverse.length = 513 := by
      simp [get_table, generate_table]
    rw [hlen] at h1 h2
    refine ⟨cs2, ?_, ?_⟩
    · simpa [ConstraintSystem.new, TableVar.new_constant] using h1
    · simpa [ConstraintSystem.new] using h2


/-! ## Claim C5 -/

theorem sum_map_footprint_cast (l : List StackElementStatus) :
    (l.map (fun st => (presentFootprint st : Int))).sum =
      ((l.map presentFootprint).sum : Int) := by
  induction l with
  | nil => rfl
  | cons a t ih =>
    rw [List.map_cons, List.map_cons, List.sum_cons, List.sum_cons, ih]
    push_cast
    ring

/-- Under the invariant, the Fenwick-tree range sum over `[idx, size)` is the
suffix footprint sum of the bitmap. -/
theorem fenwickSum_eq_suffix (s : Stack) (h : s.WF) (idx : Nat) :
    fenwickSum s.fenwick_tree idx s.size = (specSuffixFootprint s idx : Int) := by
  obtain ⟨hf, hlen, _⟩ := h
  unfold fenwickSum specSuffixFootprint
  rw [hf, ← List.map_drop]
  have hfull : ((s.bitmap.drop idx).map
      (fun st => (presentFootprint st : Int))).length ≤ s.size - idx := by
    simp [hlen]
  rw [List.take_of_length_le hfull]
  exact sum_map_footprint_cast _

/-- A `PRESENT` slot contributes at least `1` to its suffix sum. -/
theorem suffix_pos_of_present (s : Stack) (h : s.WF) (idx : Nat)
    (hp : s.isPresentAt idx = true) : 1 ≤ specSuffixFootprint s idx := by
  obtain ⟨hf, hlen, hall⟩ := h
  unfold Stack.isPresentAt at hp
  rcases hg : s.bitmap.get? idx with _ | st
  · rw [hg] at hp
    simp at hp
  rcases st with _ | n | _ <;> rw [hg] at hp <;> simp at hp
  obtain ⟨hidx, hget⟩ := List.get?_eq_some.mp hg
  have hdrop := List.drop_eq_get_cons hidx
  unfold specSuffixFootprint
  rw [hdrop, hget]
  have hmem : s.bitmap.get ⟨idx, hidx⟩ ∈ s.bitmap := List.get_mem _ _ _
  have hpos := List.all_eq_true.mp hall _ hmem
  rw [hget] at hpos
  simp [footprintPositive] at hpos
  simp [presentFootprint]
  omega

/-- C5: `get_relative_position(id)` returns a value exactly when the slot
for `id` is `PRESENT`, the returned depth is the suffix footprint sum minus
one, and `push_to_stack` / `pull` preserve the invariant backing that
formula. -/
theorem stack_relative_position_correct (s : Stack) (hWF : s.WF) :
    (∀ idx, (∃ d, s.get_relative_position idx = .ok d) ↔ s.isPresentAt idx = true) ∧
    (∀ idx, s.isPresentAt idx = true →
      s.get_relative_position idx = .ok (specSuffixFootprint s idx - 1)) ∧
    (∀ idx n s2, 1 ≤ n → s.push_to_stack idx n = .ok s2 → s2.WF) ∧
    (∀ idx s2, s.pull idx = .ok s2 → s2.WF) := by
  have hpart2 : ∀ idx, s.isPresentAt idx = true →
      s.get_relative_position idx = .ok (specSuffixFootprint s idx - 1) := by
    intro idx hp
    have hsuf := suffix_pos_of_present s hWF idx hp
    unfold Stack.isPresentAt at hp
    rcases hg : s.bitmap.get? idx with _ | st
    · rw [hg] at hp
      simp at hp
    rcases st with _ | n | _ <;> rw [hg] at hp <;> simp at hp
    obtain ⟨hidx, hget⟩ := List.get?_eq_some.mp hg
    unfold Stack.get_relative_position
    rw [dif_pos hidx, hget]
    have hfs := fenwickSum_eq_suffix s hWF idx
    simp only [hfs]
    congr 1
    omega
  refine ⟨?_, hpart2, ?_, ?_⟩
  · intro idx
    constructor
    · rintro ⟨d, hd⟩
      unfold Stack.get_relative_position at hd
      split at hd
      case isTrue h =>
        split at hd
        case _ n heq =>
          unfold Stack.isPresentAt
          rw [List.get?_eq_get h, heq]
        case _ hne => simp at hd
      case isFalse h => simp at hd
    · intro hp
      exact ⟨_, hpart2 idx hp⟩
  · intro idx n s2 hn hpush
    obtain ⟨hf, hlen, hall⟩ := hWF
    unfold Stack.push_to_stack at hpush
    split at hpush
    case isFalse h => simp at hpush
    case isTrue h =>
      split at hpush
      · simp at hpush
      case _ habs =>
        have heq : s.bitmap.get ⟨idx, h⟩ = StackElementStatus.ABSENT := by
          by_contra hcon
          exact habs hcon
        have hs2 : s2 = { s with
            bitmap := s.bitmap.set idx (StackElementStatus.PRESENT n),
            fenwick_tree := fenwickAdd s.fenwick_tree idx (n : Int) } := by
          simpa [eq_comm] using hpush
        subst hs2
        have hgd : s.fenwick_tree.getD idx 0 = 0 := by
          rw [hf]
          have hlt : idx < (s.bitmap.map
              (fun st => (presentFootprint st : Int))).length := by
            simpa using h
          rw [List.getD_eq_get _ _ hlt, List.get_map, heq]
          rfl
        refine ⟨?_, by simpa using hlen, ?_⟩
        · unfold fenwickAdd
          rw [hgd, hf, List.map_set]
          simp [presentFootprint]
        · rw [List.all_eq_true]
          intro x hx
          rcases List.mem_or_eq_of_mem_set hx with hx1 | hx1
          · exact List.all_eq_true.mp hall x hx1
          · rw [hx1]
            simp [footprintPositive]
            omega
  · intro idx s2 hpull
    obtain ⟨hf, hlen, hall⟩ := hWF
    unfold Stack.pull at hpull
    split at hpull
    case isFalse h => simp at hpull
    case isTrue h =>
      split at hpull
      case _ m heq =>
        have hs2 : s2 = { s with
            bitmap := s.bitmap.set idx StackElementStatus.PULLED,
            fenwick_tree := fenwickAdd s.fenwick_tree idx (-(m : Int)) } := by
          simpa [eq_comm] using hpull
        subst hs2
        have hgd : s.fenwick_tree.getD idx 0 = (m : Int) := by
          rw [hf]
          have hlt : idx < (s.bitmap.map
              (fun st => (presentFootprint st : Int))).length := by
            simpa using h
          rw [List.getD_eq_get _ _ hlt, List.get_map, heq]
          rfl
        refine ⟨?_, by simpa using hlen, ?_⟩
        · unfold fenwickAdd
          rw [hgd, hf, List.map_set]
          simp [presentFootprint]
        · rw [List.all_eq_true]
          intro x hx
          rcases List.mem_or_eq_of_mem_set hx with hx1 | hx1
          · exact List.all_eq_true.mp hall x hx1
          · rw [hx1]
            simp [footprintPositive]
      case _ hne => simp at hpull

/-- Witness for C5 on `sampleStack`. -/
theorem stack_relative_position_correct_witness :
    sampleStack.WF ∧
    ((∀ idx, (∃ d, sampleStack.get_relative_position idx = .ok d) ↔
        sampleStack.isPresentAt idx = true) ∧
     (∀ idx, sampleStack.isPresentAt idx = true →
        sampleStack.get_relative_position idx =
          .ok (specSuffixFootprint sampleStack idx - 1)) ∧
     (∀ idx n s2, 1 ≤ n → sampleStack.push_to_stack idx n = .ok s2 → s2.WF) ∧
     (∀ idx s2, sampleStack.pull idx = .ok s2 → s2.WF)) :=
  ⟨⟨rfl, rfl, rfl⟩, stack_relative_position_correct sampleStack ⟨rfl, rfl, rfl⟩⟩

/-! ## Claim C6 -/

/-- C6: `alloc` fails for mode `ProgramInput` once the input count is sealed
(`num_inputs` is set, by a non-input allocation or a subprogram insertion),
fails for every mode once the system is finalized, and otherwise succeeds,
assigning the next dense id and appending the trace entry matching the mode
(`ProgramInput` appends none); `insert_script` seals the input count. -/
theorem alloc_error_and_success (cs : ConstraintSystem) (data : Element)
    (mode : AllocationMode)
    (hkeys : ∀ p ∈ cs.memory, p.1 < cs.memory_last_idx) :
    (cs.finalized = true → ∃ e, cs.alloc data mode = .error e) ∧
    (cs.finalized = false → mode = AllocationMode.ProgramInput →
      cs.num_inputs.isSome = true → ∃ e, cs.alloc data mode = .error e) ∧
    (cs.finalized = false →
      (mode = AllocationMode.ProgramInput → cs.num_inputs = none) →
      ∃ cs2, cs.alloc data mode = .ok (cs.memory_last_idx, cs2) ∧
        cs2.memory_last_idx = cs.memory_last_idx + 1 ∧
        cs2.memory = cs.memory ++ [(cs.memory_last_idx, data)] ∧
        cs2.trace = cs.trace ++ traceEntryOfMode mode cs.memory_last_idx ∧
        (mode ≠ AllocationMode.ProgramInput → cs2.num_inputs.isSome = true)) ∧
    (∀ g inputs opts cs3, cs.insert_script g inputs opts = .ok cs3 →
      cs3.num_inputs.isSome = true) := by
  have hget : memGet cs.memory cs.memory_last_idx = none :=
    memGet_none_of_keys_lt _ _ hkeys
  refine ⟨?_, ?_, ?_, ?_⟩
  · intro hf
    refine ⟨"The constraint system has been finalized", ?_⟩
    simp [ConstraintSystem.alloc, hf]
  · intro hf hm hs
    refine ⟨"Inputs can only be allocated before any execution or allocation for constants or hints", ?_⟩
    rw [hm]
    simp [ConstraintSystem.alloc, hf, hs]
  · intro hf hpin
    by_cases hm : mode = AllocationMode.ProgramInput
    · have hni := hpin hm
      subst hm
      refine ⟨{ cs with
          memory := cs.memory ++ [(cs.memory_last_idx, data)],
          memory_last_idx := cs.memory_last_idx + 1 }, ?_, by simp, by simp,
          by simp [traceEntryOfMode], by simp⟩
      simp [ConstraintSystem.alloc, hf, hni, hget]
    · have e1 := alloc_ok_nonInput cs data mode hf hm hkeys
      refine ⟨_, e1, by simp, by simp, by simp, ?_⟩
      intro _
      rcases hni : cs.num_inputs with _ | k <;> simp [hni]
  · intro g inputs opts cs3 h
    unfold ConstraintSystem.insert_script at h
    by_cases hf : cs.finalized = true
    · rw [if_pos hf] at h
      simp at h
    · rw [if_neg hf] at h
      rcases hni : cs.num_inputs with _ | k <;> rw [hni] at h <;>
        simp at h <;> rw [← h] <;> simp [hni]

/-- Witness for C6: a constant allocation on a fresh system. -/
theorem alloc_error_and_success_witness :
    (∀ p ∈ ConstraintSystem.new.memory, p.1 < ConstraintSystem.new.memory_last_idx) ∧
    ((ConstraintSystem.new.finalized = true →
       ∃ e, ConstraintSystem.new.alloc (Element.Num 5) AllocationMode.Constant = .error e) ∧
     (ConstraintSystem.new.finalized = false →
       AllocationMode.Constant = AllocationMode.ProgramInput →
       ConstraintSystem.new.num_inputs.isSome = true →
       ∃ e, ConstraintSystem.new.alloc (Element.Num 5) AllocationMode.Constant = .error e) ∧
     (ConstraintSystem.new.finalized = false →
       (AllocationMode.Constant = AllocationMode.ProgramInput →
         ConstraintSystem.new.num_inputs = none) →
       ∃ cs2, ConstraintSystem.new.alloc (Element.Num 5) AllocationMode.Constant =
           .ok (ConstraintSystem.new.memory_last_idx, cs2) ∧
         cs2.memory_last_idx = ConstraintSystem.new.memory_last_idx + 1 ∧
         cs2.memory = ConstraintSystem.new.memory ++
           [(ConstraintSystem.new.memory_last_idx, Element.Num 5)] ∧
         cs2.trace = ConstraintSystem.new.trace ++
           traceEntryOfMode AllocationMode.Constant ConstraintSystem.new.memory_last_idx ∧
         (AllocationMode.Constant ≠ AllocationMode.ProgramInput →
           cs2.num_inputs.isSome = true)) ∧
     (∀ g inputs opts cs3,
       ConstraintSystem.new.insert_script g inputs opts = .ok cs3 →
       cs3.num_inputs.isSome = true)) :=
  ⟨by simp [ConstraintSystem.new],
   alloc_error_and_success ConstraintSystem.new (Element.Num 5)
     AllocationMode.Constant (by simp [ConstraintSystem.new])⟩

/-! ## Claim C4 -/

theorem foldl_hashFromStep_some (l : List Element) (h : List Nat) :
    l.foldl hashFromStep (some h) = some (specHashFoldRev l h) := by
  induction l generalizing h with
  | nil => rfl
  | cons e t ih =>
    rw [List.foldl_cons]
    exact ih _

/-- Fetching each element then folding equals folding the fetched list. -/
theorem foldlM_get_hashFromStep (cs : ConstraintSystem) (vs : List Nat)
    (es : List Element) (acc : Option (List Nat))
    (hmap : vs.mapM cs.get_element = Except.ok es) :
    (vs.foldlM (fun cur v => do
        let e ← cs.get_element v
        pure (hashFromStep cur e)) acc) = .ok (es.foldl hashFromStep acc) := by
  induction vs generalizing es acc with
  | nil =>
    rw [List.mapM_nil] at hmap
    simp only [pure, Except.pure] at hmap
    cases hmap
    rfl
  | cons v t ih =>
    rw [List.mapM_cons] at hmap
    rcases hv : cs.get_element v with e1 | e1 <;> rw [hv] at hmap
    · rw [except_bind_error] at hmap
      exact Except.noConfusion hmap
    · rw [except_bind_ok] at hmap
      rcases ht : t.mapM cs.get_element with es1 | es1 <;> rw [ht] at hmap
      · rw [except_bind_error] at hmap
        exact Except.noConfusion hmap
      · rw [except_bind_ok] at hmap
        simp only [pure, Except.pure] at hmap
        cases hmap
        rw [List.foldlM_cons, hv, except_bind_ok]
        exact ih _ _ ht

/-- C4 (amended): `HashVar::from` folds the ids in **reverse** order with no
length prefix: the hash starts from `SHA-256(encode(last element))` and each
earlier element contributes `h ← SHA-256(encode(element) ‖ h)`; at the
recording level the value is allocated as the function output and one
`hash_many` subprogram is recorded over the ids with the `len` option. -/
theorem hashVar_from_fold_correct :
    (∀ es e, hashVarFromValue (es ++ [e]) =
      some (specHashFoldRev es.reverse (sha256 (encodeElement e)))) ∧
    (∀ cs vars elems h, cs.finalized = false →
      (∀ p ∈ cs.memory, p.1 < cs.memory_last_idx) →
      vars.reverse.mapM cs.get_element = Except.ok elems.reverse →
      hashVarFromValue elems = some h →
      ∃ cs2, HashVar.from cs vars = .ok (⟨cs.memory_last_idx, h⟩, cs2) ∧
        cs2.trace = cs.trace ++
          [TraceEntry.InsertScript GadgetId.hashMany vars
             (Options.new.with_u32 "len" vars.length),
           TraceEntry.DeclareOutput cs.memory_last_idx] ∧
        cs2.memory = cs.memory ++ [(cs.memory_last_idx, Element.Str h)]) := by
  constructor
  · intro es e
    unfold hashVarFromValue
    rw [List.reverse_append]
    simp only [List.reverse_cons, List.reverse_nil, List.nil_append,
      List.singleton_append, List.foldl_cons]
    exact foldl_hashFromStep_some _ _
  · intro cs vars elems h hfin hkeys hmap hval
    have hfold := foldlM_get_hashFromStep cs vars.reverse elems.reverse
      Option.none hmap
    have hfv : elems.reverse.foldl hashFromStep Option.none = some h := by
      unfold hashVarFromValue at hval
      exact hval
    have e1 := insert_script_ok cs GadgetId.hashMany vars
      (Options.new.with_u32 "len" vars.length) hfin
    have e2 := alloc_ok_nonInput
      { cs with
        num_inputs := if cs.num_inputs = none then some cs.memory_last_idx
          else cs.num_inputs,
        trace := cs.trace ++
          [TraceEntry.InsertScript GadgetId.hashMany vars
             (Options.new.with_u32 "len" vars.length)] }
      (Element.Str h) AllocationMode.FunctionOutput (by simp [hfin])
      (by simp) hkeys
    refine
      ⟨({ memory := cs.memory ++ [(cs.memory_last_idx, Element.Str h)],
          memory_last_idx := cs.memory_last_idx + 1,
          trace := cs.trace ++
            [TraceEntry.InsertScript GadgetId.hashMany vars
               (Options.new.with_u32 "len" vars.length),
             TraceEntry.DeclareOutput cs.memory_last_idx],
          num_inputs := if cs.num_inputs = none then some cs.memory_last_idx
            else cs.num_inputs,
          finalized := false } : ConstraintSystem), ?_, by simp, by simp⟩
    unfold HashVar.from
    rw [hfold, except_bind_ok, hfv]
    simp only [e1, except_bind_ok, e2, traceEntryOfMode]
    rcases hni : cs.num_inputs with _ | k <;> simp [hni]

/-- Witness for C4's recording-level part: one string element. -/
theorem hashVar_from_fold_correct_witness :
    ((⟨[(0, Element.Str [1])], 1, [], some 1, false⟩ :
        ConstraintSystem).finalized = false) ∧
    (∀ p ∈ (⟨[(0, Element.Str [1])], 1, [], some 1, false⟩ :
        ConstraintSystem).memory, p.1 < 1) ∧
    (([0] : List Nat).reverse.mapM
      (⟨[(0, Element.Str [1])], 1, [], some 1, false⟩ :
        ConstraintSystem).get_element
      = Except.ok ([Element.Str [1]] : List Element).reverse) ∧
    (hashVarFromValue [Element.Str [1]] = some (sha256 [1])) ∧
    (∃ cs2, HashVar.from
        (⟨[(0, Element.Str [1])], 1, [], some 1, false⟩ : ConstraintSystem)
        [0] = .ok (⟨1, sha256 [1]⟩, cs2) ∧
      cs2.trace = ([] : List TraceEntry) ++
        [TraceEntry.InsertScript GadgetId.hashMany [0]
           (Options.new.with_u32 "len" ([0] : List Nat).length),
         TraceEntry.DeclareOutput 1] ∧
      cs2.memory = [(0, Element.Str [1])] ++ [(1, Element.Str (sha256 [1]))]) := by
  refine ⟨rfl, by simp, by rfl, by rfl, ?_⟩
  have h2 := hashVar_from_fold_correct.2
    (⟨[(0, Element.Str [1])], 1, [], some 1, false⟩ : ConstraintSystem)
    [0] [Element.Str [1]] (sha256 [1]) rfl (by simp) (by rfl) (by rfl)
  simpa using h2

set_option maxRecDepth 10000 in
/-- C4 counterexample: for a single byte-string element `[0x01]`, the code's
hash is `SHA-256(0x01)` while the claim's reduction (which starts from the
SHA-256 of the encoded length) gives `SHA-256(0x01 ‖ SHA-256(encode(1)))`;
the two digests differ. -/
theorem hashVar_from_length_prefix_refuted :
    hashVarFromValue [Element.Str [1]] ≠
      some (specHashVarFromValue [Element.Str [1]]) := by decide

/-! ## Claim C10 -/

/-- Whatever the recording state, a successful `HashVar` addition's native
value is the SHA-256 of the right operand's bytes followed by the left's. -/
theorem hashVar_add_value (cs : ConstraintSystem) (x y : HashVar)
    (r : HashVar) (cs2 : ConstraintSystem)
    (h : HashVar.add cs x y = .ok (r, cs2)) :
    r.value = sha256 (y.value ++ x.value) := by
  unfold HashVar.add at h
  rcases h1 : cs.insert_script GadgetId.hashCombine [y.var, x.var] Options.new
    with e | c1 <;> rw [h1] at h
  · rw [except_bind_error] at h
    exact Except.noConfusion h
  · rw [except_bind_ok] at h
    rcases h2 : c1.alloc (Element.Str (sha256 (y.value ++ x.value)))
      AllocationMode.FunctionOutput with e | p <;> rw [h2] at h
    · rw [except_bind_error] at h
      exact Except.noConfusion h
    · rw [except_bind_ok] at h
      cases h
      rfl

/-- C10: `a + b` on hash variables produces `SHA-256(b.value ‖ a.value)`
(right operand hashed first), records the `hash_combine`
(concatenate-then-SHA-256) subprogram with operand ids `[b.var, a.var]`, and
the LDM running write and read hashes are chains of exactly this combiner. -/
theorem hash_add_combine_and_ldm_chains (cs : ConstraintSystem) (a b : HashVar)
    (hfin : cs.finalized = false)
    (hkeys : ∀ p ∈ cs.memory, p.1 < cs.memory_last_idx) :
    (∃ cs2, HashVar.add cs a b = .ok
        (⟨cs.memory_last_idx, sha256 (b.value ++ a.value)⟩, cs2) ∧
      cs2.trace = cs.trace ++
        [TraceEntry.InsertScript GadgetId.hashCombine [b.var, a.var] Options.new,
         TraceEntry.DeclareOutput cs.memory_last_idx] ∧
      cs2.memory = cs.memory ++
        [(cs.memory_last_idx, Element.Str (sha256 (b.value ++ a.value)))]) ∧
    hash_combine_script = [Op.OP_CAT, Op.OP_SHA256] ∧
    (∀ ldm wh vars ldm2 cs2, ldm.write_hash_var = some wh →
      LDM.write cs ldm vars = .ok (ldm2, cs2) →
      ∃ hv, ldm2.hash_map = ldm.hash_map ++ [hv] ∧
        ldm2.write_hash_var.map HashVar.value =
          some (combineStep wh.value hv) ∧
        ldm2.value_map = ldm.value_map ++ [vars]) ∧
    (∀ ldm rh idx hint_vars ldm2 cs2, ldm.read_hash_var = some rh →
      LDM.read cs ldm idx hint_vars = .ok (ldm2, cs2) →
      ∃ hvar cs1, HashVar.from cs hint_vars = .ok (hvar, cs1) ∧
        ldm2.read_hash_var.map HashVar.value =
          some (combineStep rh.value hvar.value) ∧
        ldm2.read_log = ldm.read_log ++ [idx]) := by
  refine ⟨?_, rfl, ?_, ?_⟩
  · have e1 := insert_script_ok cs GadgetId.hashCombine [b.var, a.var]
      Options.new hfin
    have e2 := alloc_ok_nonInput
      { cs with
        num_inputs := if cs.num_inputs = none then some cs.memory_last_idx
          else cs.num_inputs,
        trace := cs.trace ++
          [TraceEntry.InsertScript GadgetId.hashCombine [b.var, a.var]
             Options.new] }
      (Element.Str (sha256 (b.value ++ a.value)))
      AllocationMode.FunctionOutput (by simp [hfin]) (by simp) hkeys
    refine
      ⟨({ memory := cs.memory ++
            [(cs.memory_last_idx, Element.Str (sha256 (b.value ++ a.value)))],
          memory_last_idx := cs.memory_last_idx + 1,
          trace := cs.trace ++
            [TraceEntry.InsertScript GadgetId.hashCombine [b.var, a.var]
               Options.new,
             TraceEntry.DeclareOutput cs.memory_last_idx],
          num_inputs := if cs.num_inputs = none then some cs.memory_last_idx
            else cs.num_inputs,
          finalized := false } : ConstraintSystem), ?_, by simp, by simp⟩
    unfold HashVar.add
    simp only [e1, except_bind_ok, e2, traceEntryOfMode]
    rcases hni : cs.num_inputs with _ | k <;> simp [hni]
  · intro ldm wh vars ldm2 cs2 hwh hwr
    unfold LDM.write at hwr
    rw [hwh] at hwr
    rcases h1 : HashVar.from cs vars with e | p1 <;>
      simp only [h1, except_bind_error, except_bind_ok] at hwr
    · exact Except.noConfusion hwr
    rcases h2 : HashVar.add p1.2 wh p1.1 with e | p2 <;>
      simp only [h2, except_bind_error, except_bind_ok] at hwr
    · exact Except.noConfusion hwr
    have hval := hashVar_add_value p1.2 wh p1.1 p2.1 p2.2 (by rw [← h2])
    cases hwr
    exact ⟨p1.1.value, by simp, by simp [hval, combineStep], by simp⟩
  · intro ldm rh idx hint_vars ldm2 cs2 hrh hrd
    unfold LDM.read at hrd
    rw [hrh] at hrd
    rcases h1 : HashVar.from cs hint_vars with e | p1 <;>
      simp only [h1, except_bind_error, except_bind_ok] at hrd
    · exact Except.noConfusion hrd
    rcases h2 : HashVar.add p1.2 rh p1.1 with e | p2 <;>
      simp only [h2, except_bind_error, except_bind_ok] at hrd
    · exact Except.noConfusion hrd
    have hval := hashVar_add_value p1.2 rh p1.1 p2.1 p2.2 (by rw [← h2])
    cases hrd
    exact ⟨p1.1, p1.2, by simp, by simp [hval, combineStep], by simp⟩

/-- Witness for C10 on a fresh system with two concrete 1-byte hash values. -/
theorem hash_add_combine_and_ldm_chains_witness :
    (ConstraintSystem.new.finalized = false) ∧
    (∀ p ∈ ConstraintSystem.new.memory, p.1 < ConstraintSystem.new.memory_last_idx) ∧
    ((∃ cs2, HashVar.add ConstraintSystem.new ⟨0, [5]⟩ ⟨1, [7]⟩ = .ok
        (⟨ConstraintSystem.new.memory_last_idx,
          sha256 ((⟨1, [7]⟩ : HashVar).value ++ (⟨0, [5]⟩ : HashVar).value)⟩, cs2) ∧
      cs2.trace = ConstraintSystem.new.trace ++
        [TraceEntry.InsertScript GadgetId.hashCombine
           [(⟨1, [7]⟩ : HashVar).var, (⟨0, [5]⟩ : HashVar).var] Options.new,
         TraceEntry.DeclareOutput ConstraintSystem.new.memory_last_idx] ∧
      cs2.memory = ConstraintSystem.new.memory ++
        [(ConstraintSystem.new.memory_last_idx,
          Element.Str (sha256 ((⟨1, [7]⟩ : HashVar).value ++
            (⟨0, [5]⟩ : HashVar).value)))]) ∧
    hash_combine_script = [Op.OP_CAT, Op.OP_SHA256] ∧
    (∀ ldm wh vars ldm2 cs2, ldm.write_hash_var = some wh →
      LDM.write ConstraintSystem.new ldm vars = .ok (ldm2, cs2) →
      ∃ hv, ldm2.hash_map = ldm.hash_map ++ [hv] ∧
        ldm2.write_hash_var.map HashVar.value =
          some (combineStep wh.value hv) ∧
        ldm2.value_map = ldm.value_map ++ [vars]) ∧
    (∀ ldm rh idx hint_vars ldm2 cs2, ldm.read_hash_var = some rh →
      LDM.read ConstraintSystem.new ldm idx hint_vars = .ok (ldm2, cs2) →
      ∃ hvar cs1, HashVar.from ConstraintSystem.new hint_vars = .ok (hvar, cs1) ∧
        ldm2.read_hash_var.map HashVar.value =
          some (combineStep rh.value hvar.value) ∧
        ldm2.read_log = ldm.read_log ++ [idx])) :=
  ⟨rfl, by simp [ConstraintSystem.new],
   hash_add_combine_and_ldm_chains ConstraintSystem.new ⟨0, [5]⟩ ⟨1, [7]⟩
     rfl (by simp [ConstraintSystem.new])⟩

/-! ## Claims C1 and C3 -/

/-- The element at position `i` is a member of the slice from `i`. -/
theorem drop_contains_self (l : List Nat) (i : Nat) (idx : Nat)
    (h : l.get? i = some idx) : (l.drop i).contains idx = true := by
  have hmem : idx ∈ l.drop i := by
    apply List.get?_mem (n := 0)
    rw [List.get?_drop]
    simpa using h
  simpa using hmem

/-- C1: the main walk's roll condition tests `inputs[i..]`, a slice that
always contains the id at position `i` itself, so the compiler never rolls
(and never pulls) an operand; on the concrete trace where the spec's rule
(last touch now, no later occurrence, not an output) demands a roll for
input id 0, the emitted script uses only `OP_PICK`. -/
theorem compiler_main_walk_never_rolls :
    (∀ lv t out inputs i idx, inputs.get? i = some idx →
      compilerChoosesRoll lv t out inputs i idx = false) ∧
    ((computeLastVisit 3 smallDsl.trace).getD 0 (-1) = 0 ∧
      ¬ ((0 : Nat) ∈ (([0, 1] : List Nat).drop 1)) ∧
      ¬ ((0 : Nat) ∈ smallDsl.output)) ∧
    (Compiler.compiler smallDsl).map CompiledProgram.script =
      .ok [Op.OP_PICK 1, Op.OP_PICK 1, Op.SubprogramCall "add" [],
        Op.OP_PICK 0, Op.OP_TOALTSTACK, Op.OP_2DROP, Op.OP_DROP,
        Op.OP_FROMALTSTACK] := by
  refine ⟨?_, by refine ⟨by rfl, by decide, by decide⟩, by rfl⟩
  intro lv t out inputs i idx h
  unfold compilerChoosesRoll
  rw [drop_contains_self inputs i idx h]
  simp

/-- Witness for C1's universally quantified part at a concrete slice. -/
theorem compiler_main_walk_never_rolls_witness :
    (([0, 1] : List Nat).get? 0 = some 0) ∧
    compilerChoosesRoll [0] 0 [] [0, 1] 0 0 = false :=
  ⟨by decide, (compiler_main_walk_never_rolls.1) [0] 0 [] [0, 1] 0 0 (by decide)⟩

/-- C3: the output-routing check tests `output_list_rev[i..]`, a slice that
always contains the current occurrence, so routing always picks and never
rolls or pulls; every routed value still goes to the altstack, and since
`output_total_len` is accumulated on every (pick) iteration, the emitted
`OP_FROMALTSTACK` count equals the total routed footprint (2 for the
concrete `cm31` output below). -/
theorem output_routing_never_rolls :
    (∀ (rev : List Nat) i idx, rev.get? i = some idx →
      (rev.drop i).contains idx = true) ∧
    (Compiler.compiler smallDsl2).map CompiledProgram.script =
      .ok [Op.OP_PICK 1, Op.OP_PICK 1, Op.SubprogramCall "f" [],
        Op.OP_PICK 1, Op.OP_PICK 1, Op.OP_TOALTSTACK, Op.OP_TOALTSTACK,
        Op.OP_2DROP, Op.OP_2DROP, Op.OP_FROMALTSTACK, Op.OP_FROMALTSTACK] := by
  exact ⟨drop_contains_self, by rfl⟩

/-- Witness for C3's universally quantified part at a concrete slice. -/
theorem output_routing_never_rolls_witness :
    (([2, 2] : List Nat).get? 1 = some 2) ∧
    (([2, 2] : List Nat).drop 1).contains 2 = true :=
  ⟨by decide, (output_routing_never_rolls.1) [2, 2] 1 2 (by decide)⟩
